import Mathlib

/- Shallow embedding of the Full Tilt 90-man replayer:
   the hand-history parser (src/ft_hand_parser.py) and the
   point-in-time state-reconstruction engine (src/gui_replayer.py).

   Python strings are modelled as `List Char`; Python integers as `Int`
   (chip amounts are exact integers, never floats, in the modelled code);
   Python dicts keyed by player name as total functions `List Char → Int`
   whose default value is the `.get(name, 0)` default used by the code. -/

def str (s : String) : List Char := s.data

/-- ASCII whitespace, as matched by Python `\s`, `str.strip()` and `str.split()`. -/
def isWS (c : Char) : Bool :=
  c = ' ' || c = '\t' || c = '\n' || c = '\r' || c = Char.ofNat 11 || c = Char.ofNat 12

/-- Python `str.strip()`. -/
def pstrip (s : List Char) : List Char :=
  ((s.dropWhile isWS).reverse.dropWhile isWS).reverse

/-- Python `str.lower()` (the modelled inputs are ASCII). -/
def plower (s : List Char) : List Char := s.map Char.toLower

/-- Python `needle in hay` substring test. -/
def infixOf (needle : List Char) : List Char → Bool
  | [] => needle.isEmpty
  | c :: rest => needle.isPrefixOf (c :: rest) || infixOf needle rest

/-- Case-insensitive literal test at the start of `s` (`pat` is given lowered). -/
def ciHasPrefix (pat : List Char) (s : List Char) : Bool :=
  pat = plower (s.take pat.length)

/-- Numeric value of the digits of an amount token with the commas removed,
    as in Python `int(tok.replace(',', ''))`. -/
def amountVal (tok : List Char) : Nat :=
  (tok.filter (fun d => d ≠ ',')).foldl (fun n d => 10 * n + (d.toNat - 48)) 0

/-- The maximal `\d[\d,]*` run starting at digit `c`. -/
def amountRun (c : Char) (rest : List Char) : List Char :=
  c :: rest.takeWhile (fun d => d.isDigit || d = ',')

/-- Embeds `_extract_first_amount` (gui_replayer.py:1200-1210): first match of
    `(\d[\d,]*)` in the detail text, commas removed, 0 when there is none.
    The `if not text` guard is subsumed by the empty-list case. -/
def extract_first_amount : List Char → Int
  | [] => 0
  | c :: rest =>
    if c.isDigit then (amountVal (amountRun c rest) : Int)
    else extract_first_amount rest

/-- The `\s+to\s+(\d[\d,]*)` tail of the raise-target pattern.  Each `\s+` is
    a maximal whitespace run here because the character required right after
    it (`t` resp. a digit) is itself not whitespace, so the regex engine's
    backtracking never shortens the run. -/
def raisesToTail : List Char → Option Nat
  | [] => none
  | c :: rest =>
    if isWS c then
      match rest.dropWhile isWS with
      | 't' :: 'o' :: s2 =>
        match s2 with
        | [] => none
        | d :: r2 =>
          if isWS d then
            match r2.dropWhile isWS with
            | [] => none
            | e :: r3 => if e.isDigit then some (amountVal (amountRun e r3)) else none
          else none
      | _ => none
    else none

/-- Leftmost match of `raises\s+to\s+(\d[\d,]*)` (the `re.search` in
    `_extract_raise_to_amount`). -/
def raisesToSearch : List Char → Option Nat
  | [] => none
  | c :: rest =>
    if (str "raises").isPrefixOf (c :: rest) then
      match raisesToTail ((c :: rest).drop 6) with
      | some n => some n
      | none => raisesToSearch rest
    else raisesToSearch rest

/-- Embeds `_extract_raise_to_amount` (gui_replayer.py:1212-1223): the amount after
    `raises to` when that pattern occurs in the text, else the first amount. -/
def extract_raise_to_amount (text : List Char) : Int :=
  match raisesToSearch text with
  | some n => (n : Int)
  | none => extract_first_amount text

/-- The `\s+to\s+(.+)$` tail of the returned-to pattern, case-insensitive on
    `to`.  When the maximal whitespace run after `to` consumes the rest of the
    line, the engine backtracks one whitespace character into the group, so the
    group is then the final whitespace character alone; with no character left
    at all there is no match. -/
def returnedToTail : List Char → Option (List Char)
  | [] => none
  | c :: rest =>
    if isWS c then
      match rest.dropWhile isWS with
      | t :: o :: s2 =>
        if t.toLower = 't' && o.toLower = 'o' then
          match s2 with
          | [] => none
          | d :: r2 =>
            if isWS d then
              match r2.dropWhile isWS with
              | [] => if r2 = [] then none else some (r2.reverse.take 1)
              | e :: r3 => some (e :: r3)
            else none
        else none
      | _ => none
    else none

/-- Leftmost case-insensitive match of `returned\s+to\s+(.+)$`. -/
def returnedToSearch : List Char → Option (List Char)
  | [] => none
  | c :: rest =>
    if ciHasPrefix (str "returned") (c :: rest) then
      match returnedToTail ((c :: rest).drop 8) with
      | some g => some g
      | none => returnedToSearch rest
    else returnedToSearch rest

/-- Embeds `_extract_returned_to_name` (gui_replayer.py:1225-1238): the group of the
    `returned to <name>` clause, stripped, with trailing `[.\s]+` removed. -/
def extract_returned_to_name (detail : List Char) : Option (List Char) :=
  match returnedToSearch detail with
  | none => none
  | some g =>
    some (((pstrip g).reverse.dropWhile (fun c => c = '.' || isWS c)).reverse)

example : extract_first_amount (str "the small blind 10") = 10 := by decide
example : extract_first_amount (str "no digits here") = 0 := by decide
example : extract_first_amount (str "1,500 chips") = 1500 := by decide
example : extract_raise_to_amount (str "to 300") = 300 := by decide
example : extract_raise_to_amount (str "100 chips to 300") = 100 := by decide
example : extract_raise_to_amount (str "x raises to 2,000 now") = 2000 := by decide
example : extract_returned_to_name (str "of 445 returned to joehiro") =
    some (str "joehiro") := by decide
example : extract_returned_to_name (str "of 445 Returned To joehiro. ") =
    some (str "joehiro") := by decide
example : extract_returned_to_name (str "nothing relevant") = none := by decide

/- ==================== Data model (ft_hand_parser.py:46-61) ==================== -/

namespace FT

/-- One parsed event line (`hand_info['actions'][street]` entries). -/
structure Action where
  player : List Char
  action : List Char
  detail : List Char
deriving DecidableEq, Repr

/-- One seat occupant (`hand_info['players']` entries). -/
structure Player where
  seat : Nat
  name : List Char
  chips : Int
  sitting_out : Bool
deriving DecidableEq, Repr

inductive Street where
  | preflop
  | flop
  | turn
  | river
deriving DecidableEq, Repr

/-- Position of a street in the fixed replay order. -/
def Street.idx : Street → Nat
  | .preflop => 0
  | .flop => 1
  | .turn => 2
  | .river => 3

/-- One played hand (`hand_info`). -/
structure Hand where
  header : List Char
  button_seat : Option Nat
  players : List Player
  preflopA : List Action
  flopA : List Action
  turnA : List Action
  riverA : List Action
  board_flop : List (List Char)
  board_turn : List (List Char)
  board_river : List (List Char)
  summary : List (List Char × List Char)
  hero : Option (List Char)
  hole_cards : Option (List Char)
deriving DecidableEq, Repr

/-- Reads `hand['actions'][street]`. -/
def Hand.actions (h : Hand) : Street → List Action
  | .preflop => h.preflopA
  | .flop => h.flopA
  | .turn => h.turnA
  | .river => h.riverA

def emptyHand : Hand :=
  ⟨[], none, [], [], [], [], [], [], [], [], [], none, none⟩

/-- Per-player chip map, as the Python dicts with `.get(name, 0)` reads. -/
def NameMap : Type := List Char → Int

def updMap (m : NameMap) (k : List Char) (v : Int) : NameMap :=
  fun x => if x = k then v else m x

def zeroMap : NameMap := fun _ => 0

/-- The `(street, action-index)` cursor order: streets in replay order, indices
    within a street. -/
def cursorLE (c1 c2 : Street × Int) : Prop :=
  c1.1.idx < c2.1.idx ∨ (c1.1 = c2.1 ∧ c1.2 ≤ c2.2)

instance (c1 c2 : Street × Int) : Decidable (cursorLE c1 c2) := by
  unfold cursorLE; infer_instance

/-- Number of actions processed on the target street:
    `upto = max(0, min(target_action_index + 1, len(actions)))`. -/
def uptoCount (ti : Int) (n : Nat) : Nat :=
  (max 0 (min (ti + 1) (n : Int))).toNat

/-- The replayed prefix of the target street's action list. -/
def prefixActs (h : Hand) (s : Street) (ti : Int) : List Action :=
  (h.actions s).take (uptoCount ti (h.actions s).length)

/- ==================== compute_pot_upto (gui_replayer.py:1239-1315) ==================== -/

/-- Embeds `process_action` inside `compute_pot_upto` (gui_replayer.py:1253-1293):
    apply one action to the running (pot, per-street contribution map) pair.
    Note that the source adds `antes` into the same contribution map as
    `posts` (line 1261-1265). -/
def potStep (st : Int × NameMap) (a : Action) : Int × NameMap :=
  let pot := st.1
  let contrib := st.2
  if a.action = str "checks" || a.action = str "folds" || a.action = str "shows" ||
      a.action = str "mucks" || a.action = str "collected" || a.action = str "wins" ||
      a.action = str "is sitting out" || a.action = str "has returned" then st
  else if a.action = str "posts" || a.action = str "antes" then
    let amt := extract_first_amount a.detail
    (pot + amt, updMap contrib a.player (contrib a.player + amt))
  else if a.action = str "bets" then
    let amt := extract_first_amount a.detail
    (pot + amt, updMap contrib a.player (contrib a.player + amt))
  else if a.action = str "calls" then
    let amt := extract_first_amount a.detail
    (pot + amt, updMap contrib a.player (contrib a.player + amt))
  else if a.action = str "raises" then
    let target_total := extract_raise_to_amount a.detail
    let prev := contrib a.player
    let delta := max 0 (target_total - prev)
    (pot + delta, updMap contrib a.player (prev + delta))
  else if a.action = str "uncalled" then
    let amt := extract_first_amount a.detail
    let recipient := if a.player ≠ [] then some a.player else extract_returned_to_name a.detail
    match recipient with
    | some r =>
      if r ≠ [] then (pot - amt, updMap contrib r (max 0 (contrib r - amt)))
      else (pot - amt, contrib)
    | none => (pot - amt, contrib)
  else st

/-- One street of `compute_pot_upto`'s loop: contributions reset to zero at the
    street start, the final pot carried forward. -/
def streetPot (pot : Int) (acts : List Action) : Int :=
  (acts.foldl potStep (pot, zeroMap)).1

/-- Embeds `compute_pot_upto` (gui_replayer.py:1239-1315).  The source's street loop
    processes every street before the target fully and the target street up to
    `uptoCount`; its `continue` on an empty non-target street and `break` on an
    empty target street coincide with folding over the empty list. -/
def compute_pot_upto (h : Hand) (ts : Street) (ti : Int) : Int :=
  match ts with
  | .preflop => streetPot 0 (prefixActs h .preflop ti)
  | .flop => streetPot (streetPot 0 h.preflopA) (prefixActs h .flop ti)
  | .turn =>
    streetPot (streetPot (streetPot 0 h.preflopA) h.flopA) (prefixActs h .turn ti)
  | .river =>
    streetPot (streetPot (streetPot (streetPot 0 h.preflopA) h.flopA) h.turnA)
      (prefixActs h .river ti)

/- ==================== compute_stacks_upto (gui_replayer.py:1317-1406) ==================== -/

/-- Embeds `sub_from_stack` (gui_replayer.py:1334-1337). -/
def sub_from_stack (stks : NameMap) (name : List Char) (amt : Int) : NameMap :=
  if name = [] || name = str "Board" || amt ≤ 0 then stks
  else updMap stks name (stks name - amt)

/-- Embeds `add_to_stack` (gui_replayer.py:1339-1342). -/
def add_to_stack (stks : NameMap) (name : List Char) (amt : Int) : NameMap :=
  if name = [] || name = str "Board" || amt ≤ 0 then stks
  else updMap stks name (stks name + amt)

/-- One action of the `compute_stacks_upto` loop body (gui_replayer.py:1360-1401):
    state is (stack map, per-street non-ante contribution map). -/
def stacksStep (st : NameMap × NameMap) (a : Action) : NameMap × NameMap :=
  let stks := st.1
  let nonAnte := st.2
  let act := plower a.action
  if act = str "checks" || act = str "folds" || act = str "shows" ||
      act = str "mucks" || act = str "is sitting out" || act = str "has returned" then st
  else if act = str "posts" then
    let amt := extract_first_amount a.detail
    (sub_from_stack stks a.player amt, updMap nonAnte a.player (nonAnte a.player + amt))
  else if act = str "antes" then
    let amt := extract_first_amount a.detail
    (sub_from_stack stks a.player amt, nonAnte)
  else if act = str "bets" then
    let amt := extract_first_amount a.detail
    (sub_from_stack stks a.player amt, updMap nonAnte a.player (nonAnte a.player + amt))
  else if act = str "calls" then
    let amt := extract_first_amount a.detail
    (sub_from_stack stks a.player amt, updMap nonAnte a.player (nonAnte a.player + amt))
  else if act = str "raises" then
    let target_total := extract_raise_to_amount a.detail
    let prev := nonAnte a.player
    let delta := max 0 (target_total - prev)
    (sub_from_stack stks a.player delta, updMap nonAnte a.player (prev + delta))
  else if act = str "wins" || act = str "collected" then
    (add_to_stack stks a.player (extract_first_amount a.detail), nonAnte)
  else if act = str "uncalled" then
    let amt := extract_first_amount a.detail
    let recipient := if a.player ≠ [] then some a.player else extract_returned_to_name a.detail
    match recipient with
    | some r =>
      if r ≠ [] then (add_to_stack stks r amt, updMap nonAnte r (max 0 (nonAnte r - amt)))
      else st
    | none => st
  else st

/-- Starting stack map `{p['name']: int(p['chips'])}` from the seat lines
    (later duplicate names override, as in a dict comprehension). -/
def initStacks (h : Hand) : NameMap :=
  h.players.foldl (fun m p => updMap m p.name p.chips) zeroMap

/-- One street of the stack-map loop: a fresh non-ante contribution map per street. -/
def stacksStreet (stks : NameMap) (acts : List Action) : NameMap :=
  (acts.foldl stacksStep (stks, zeroMap)).1

/-- Python `target_action_index or 0`, identity on every integer. -/
def pyOrZero (i : Int) : Int := if i = 0 then 0 else i

/-- The stack-map loop reads its target index through `or 0`. -/
def stacksPrefix (h : Hand) (s : Street) (ti : Int) : List Action :=
  (h.actions s).take (uptoCount (pyOrZero ti) (h.actions s).length)

/-- Embeds `compute_stacks_upto` (gui_replayer.py:1317-1406). -/
def compute_stacks_upto (h : Hand) (ts : Street) (ti : Int) : NameMap :=
  match ts with
  | .preflop => stacksStreet (initStacks h) (stacksPrefix h .preflop ti)
  | .flop => stacksStreet (stacksStreet (initStacks h) h.preflopA) (stacksPrefix h .flop ti)
  | .turn =>
    stacksStreet (stacksStreet (stacksStreet (initStacks h) h.preflopA) h.flopA)
      (stacksPrefix h .turn ti)
  | .river =>
    stacksStreet
      (stacksStreet (stacksStreet (stacksStreet (initStacks h) h.preflopA) h.flopA) h.turnA)
      (stacksPrefix h .river ti)

/- ============ compute_street_contrib_upto (gui_replayer.py:1408-1451) ============ -/

/-- One action of `compute_street_contrib_upto`: state is
    (non-ante contributions, ante contributions) for the target street only. -/
def contribStep (st : NameMap × NameMap) (a : Action) : NameMap × NameMap :=
  let nonAnte := st.1
  let antes := st.2
  if a.action = str "checks" || a.action = str "folds" || a.action = str "shows" ||
      a.action = str "mucks" || a.action = str "collected" || a.action = str "wins" ||
      a.action = str "is sitting out" || a.action = str "has returned" then st
  else if a.action = str "posts" then
    (updMap nonAnte a.player (nonAnte a.player + extract_first_amount a.detail), antes)
  else if a.action = str "antes" then
    (nonAnte, updMap antes a.player (antes a.player + extract_first_amount a.detail))
  else if a.action = str "bets" then
    (updMap nonAnte a.player (nonAnte a.player + extract_first_amount a.detail), antes)
  else if a.action = str "calls" then
    (updMap nonAnte a.player (nonAnte a.player + extract_first_amount a.detail), antes)
  else if a.action = str "raises" then
    let target_total := extract_raise_to_amount a.detail
    let prev := nonAnte a.player
    let delta := max 0 (target_total - prev)
    (updMap nonAnte a.player (prev + delta), antes)
  else if a.action = str "uncalled" then
    let amt := extract_first_amount a.detail
    let name := if a.player ≠ [] then some a.player else extract_returned_to_name a.detail
    match name with
    | some n =>
      if n ≠ [] then (updMap nonAnte n (max 0 (nonAnte n - amt)), antes) else st
    | none => st
  else st

/-- Embeds `compute_street_contrib_upto` (gui_replayer.py:1408-1451): target street only,
    returning (non-ante contributions, antes). -/
def compute_street_contrib_upto (h : Hand) (ts : Street) (ti : Int) : NameMap × NameMap :=
  (prefixActs h ts ti).foldl contribStep (zeroMap, zeroMap)

/- ============ compute_board_upto (gui_replayer.py:1572-1618) ============ -/

/-- The test applied per action by `compute_board_upto`'s scans:
    `a.get('action') == 'board' and '<street>' in a.get('detail', '').lower()`. -/
def boardActFor (w : List Char) (a : Action) : Bool :=
  a.action = str "board" && infixOf w (plower a.detail)

/-- The scan for the street's synthetic `board` action within the replayed
    prefix of the target street's actions. -/
def boardSeen (w : List Char) (acts : List Action) (ti : Int) : Bool :=
  (acts.take (uptoCount ti acts.length)).any (boardActFor w)

/-- Embeds `compute_board_upto` (gui_replayer.py:1572-1618). -/
def compute_board_upto (h : Hand) (ts : Street) (ti : Int) : List (List Char) :=
  match ts with
  | .preflop => []
  | .flop => if boardSeen (str "flop") h.flopA ti then h.board_flop else []
  | .turn =>
    h.board_flop ++ (if boardSeen (str "turn") h.turnA ti then h.board_turn else [])
  | .river =>
    h.board_flop ++ h.board_turn ++
      (if boardSeen (str "river") h.riverA ti then h.board_river else [])

/- ============ compute_folded_players_upto (gui_replayer.py:1620-1647) ============ -/

/-- All actions replayed at a cursor: earlier streets fully, the target street
    up to `uptoCount` (the set-accumulating queries share this shape). -/
def replayedOrder (h : Hand) (ts : Street) (ti : Int) : List Action :=
  match ts with
  | .preflop => prefixActs h .preflop ti
  | .flop => h.preflopA ++ prefixActs h .flop ti
  | .turn => h.preflopA ++ h.flopA ++ prefixActs h .turn ti
  | .river => h.preflopA ++ h.flopA ++ h.turnA ++ prefixActs h .river ti

/-- The per-action test of the folded-set accumulation
    (gui_replayer.py:1643): a `folds` action by a real player. -/
def isFoldAct (a : Action) : Bool :=
  a.player ≠ [] && a.player ≠ str "Board" && a.action = str "folds"

/-- One action of the folded-set accumulation (gui_replayer.py:1641-1644). -/
def foldedStep (folded : List Char → Bool) (a : Action) : List Char → Bool :=
  if isFoldAct a then fun x => if x = a.player then true else folded x
  else folded

/-- Embeds `compute_folded_players_upto` (gui_replayer.py:1620-1647), the folded set
    given as its membership test. -/
def compute_folded_players_upto (h : Hand) (ts : Street) (ti : Int) : List Char → Bool :=
  (replayedOrder h ts ti).foldl foldedStep (fun _ => false)

/- ==================== Hand parser (ft_hand_parser.py) ==================== -/

/-- Python `line.split()` (no separator): whitespace runs separate, empties dropped. -/
def splitWS (s : List Char) : List (List Char) :=
  (s.splitOnP isWS).filter (fun w => !w.isEmpty)

/-- Value of a `\d+` group. -/
def natRun (d : Char) (r : List Char) : Nat :=
  amountVal (d :: r.takeWhile (fun x => x.isDigit))

/-- The lowered literal of `button_re` (compiled with `re.IGNORECASE`). -/
def buttonPat : List Char := str "the button is in seat #"

/-- Leftmost case-insensitive match of `The button is in seat #(\d+)`
    (ft_hand_parser.py:64,81-84). -/
def buttonSearch : List Char → Option Nat
  | [] => none
  | c :: rest =>
    if ciHasPrefix buttonPat (c :: rest) then
      match (c :: rest).drop buttonPat.length with
      | [] => buttonSearch rest
      | d :: r2 => if d.isDigit then some (natRun d r2) else buttonSearch rest
    else buttonSearch rest

/-- Leftmost match of `\[([^\]]+)\]` (the `re.search` on the flop marker line). -/
def firstBracket : List Char → Option (List Char)
  | [] => none
  | c :: rest =>
    if c = '[' then
      let run := rest.takeWhile (fun d => d ≠ ']')
      if run.isEmpty then firstBracket rest
      else if (rest.drop run.length).isEmpty then firstBracket rest
      else some run
    else firstBracket rest

/-- Embeds `re.findall(r'\[([^\]]+)\]', line)`: successive non-overlapping matches.
    Every step consumes at least one character, so the character count is
    enough fuel for the scan to run to completion. -/
def allBracketsFuel : Nat → List Char → List (List Char)
  | 0, _ => []
  | _, [] => []
  | fuel + 1, c :: rest =>
    if c = '[' then
      let run := rest.takeWhile (fun d => d ≠ ']')
      if run.isEmpty then allBracketsFuel fuel rest
      else if (rest.drop run.length).isEmpty then allBracketsFuel fuel rest
      else run :: allBracketsFuel fuel (rest.drop (run.length + 1))
    else allBracketsFuel fuel rest

def allBrackets (s : List Char) : List (List Char) := allBracketsFuel s.length s

/-- The non-greedy group `(.+?)` followed by a tail pattern: the shortest
    nonempty group after which the tail matches. -/
def nameScan {A : Type} (tailF : List Char → Option A) :
    List Char → List Char → Option (List Char × A)
  | [], _ => none
  | c :: rest, accRev =>
    match tailF rest with
    | some v => some ((c :: accRev).reverse, v)
    | none => nameScan tailF rest (c :: accRev)

/-- Matches `\s+(.+?)<tail>` with the backtracking order of the regex engine: the
    greedy `\s+` is tried longest-first (it may hand whitespace characters
    over to the group), and for each whitespace count the group is grown
    shortest-first. -/
def wsLoop {A : Type} (tailF : List Char → Option A) (s : List Char) :
    Nat → Option (List Char × A)
  | 0 => none
  | k + 1 =>
    match nameScan tailF (s.drop (k + 1)) [] with
    | some v => some v
    | none => wsLoop tailF s k

def wsThenName {A : Type} (tailF : List Char → Option A) (s : List Char) :
    Option (List Char × A) :=
  match s with
  | [] => none
  | c :: _ => if isWS c then wsLoop tailF s (s.takeWhile isWS).length else none

/-- The `\s+\(([\d,]+)\)` tail of `player_re`; yields the raw chips group.
    Both inner runs are deterministic: `(` is not whitespace and `)` is
    neither a digit nor a comma. -/
def seatTail (s : List Char) : Option (List Char) :=
  match s with
  | [] => none
  | c :: rest =>
    if isWS c then
      match rest.dropWhile isWS with
      | '(' :: r2 =>
        match r2 with
        | [] => none
        | d :: _ =>
          if d.isDigit || d = ',' then
            let run := r2.takeWhile (fun x => x.isDigit || x = ',')
            match r2.drop run.length with
            | ')' :: _ => some run
            | _ => none
          else none
      | _ => none
    else none

/-- Embeds `player_re = Seat\s+(\d+):\s+(.+?)\s+\(([\d,]+)\)` under `re.match`
    (ft_hand_parser.py:62):
    seat number, raw name group, raw chips group. -/
def playerReMatch (line : List Char) : Option (Nat × List Char × List Char) :=
  if (str "Seat").isPrefixOf line then
    match line.drop 4 with
    | [] => none
    | c :: _ =>
      if isWS c then
        let r2 := (line.drop 4).dropWhile isWS
        match r2 with
        | [] => none
        | d :: _ =>
          if d.isDigit then
            let digs := r2.takeWhile (fun x => x.isDigit)
            match r2.drop digs.length with
            | ':' :: r4 =>
              match wsThenName seatTail r4 with
              | some (nm, chipGrp) => some (amountVal digs, nm, chipGrp)
              | none => none
            | _ => none
          else none
      else none
  else none

/-- The `\s+\[(.+?)\]` tail of the `Dealt to` pattern: whitespace, `[`, then
    at least one character and the first `]` after it. -/
def dealtTail (s : List Char) : Option (List Char) :=
  match s with
  | [] => none
  | c :: rest =>
    if isWS c then
      match rest.dropWhile isWS with
      | '[' :: r2 =>
        match r2 with
        | [] => none
        | e :: r3 =>
          if (r3.dropWhile (fun d => d ≠ ']')).isEmpty then none
          else some (e :: r3.takeWhile (fun d => d ≠ ']'))
      | _ => none
    else none

/-- Embeds `re.match(r"Dealt to\s+(.+?)\s+\[(.+?)\]", line)` (ft_hand_parser.py:135):
    raw hero-name group and raw cards group. -/
def dealtToMatch (line : List Char) : Option (List Char × List Char) :=
  if (str "Dealt to").isPrefixOf line then wsThenName dealtTail (line.drop 8)
  else none

/-- The fixed verb alternation of `action_re` (ft_hand_parser.py:63), in
    pattern order.  No verb is a literal head of another, so at most one
    matches at a given position. -/
def verbs : List (List Char) :=
  [str "bets", str "calls", str "raises", str "checks", str "folds", str "shows",
   str "collected", str "posts", str "antes", str "mucks", str "wins",
   str "is sitting out", str "has returned"]

def verbAt (s : List Char) : Option (List Char) :=
  verbs.find? (fun v => v.isPrefixOf s)

/-- Embeds `action_re = ^(.+?) (verb)(.*)`: the space before the verb is probed only
    once the non-greedy first group is nonempty; on failure the space itself
    joins the group. -/
def actionScan : List Char → List Char → Option Action
  | [], _ => none
  | c :: rest, accRev =>
    if accRev.isEmpty then actionScan rest [c]
    else if c = ' ' then
      match verbAt rest with
      | some v => some ⟨accRev.reverse, v, rest.drop v.length⟩
      | none => actionScan rest (c :: accRev)
    else actionScan rest (c :: accRev)

/-- Embeds `action_re.match(line)` with groups (player, verb, raw remainder). -/
def actionMatch (line : List Char) : Option Action := actionScan line []

/-- Parser state machine state for one hand (ft_hand_parser.py:46-168).
    `failed` models the `ValueError` raised by `int('')` when a seat line's
    chips group `[\d,]+` contains no digit; the exception propagates, so the
    remaining lines are not processed. -/
structure PState where
  hand : Hand
  cur : Street
  summarySec : Bool
  holeSec : Bool
  failed : Bool

def Hand.pushAction (h : Hand) (s : Street) (a : Action) : Hand :=
  match s with
  | .preflop => { h with preflopA := h.preflopA ++ [a] }
  | .flop => { h with flopA := h.flopA ++ [a] }
  | .turn => { h with turnA := h.turnA ++ [a] }
  | .river => { h with riverA := h.riverA ++ [a] }

/-- Python dict assignment on `summary`: replace in place or append. -/
def updAssoc (l : List (List Char × List Char)) (k v : List Char) :
    List (List Char × List Char) :=
  match l with
  | [] => [(k, v)]
  | (k0, v0) :: rest => if k0 = k then (k, v) :: rest else (k0, v0) :: updAssoc rest k v

/-- Embeds `line.split(':', 1)`. -/
def splitColon (s : List Char) : List Char × List Char :=
  (s.takeWhile (fun c => c ≠ ':'), (s.dropWhile (fun c => c ≠ ':')).drop 1)

/-- The seat-line / summary-line / action-line chain
    (ft_hand_parser.py:144-167), reached when no earlier branch consumed the
    line. -/
def seatSummaryAction (st : PState) (line : List Char) : PState :=
  if !st.summarySec && (str "Seat ").isPrefixOf line then
    match playerReMatch line with
    | some (seat, nm, chipGrp) =>
      if (chipGrp.filter (fun c => c ≠ ',')).isEmpty then { st with failed := true }
      else
        { st with hand := { st.hand with players := st.hand.players ++
            [⟨seat, pstrip nm, (amountVal chipGrp : Int),
              infixOf (str "is sitting out") (plower line)⟩] } }
    | none => st
  else if st.summarySec then
    if line.contains ':' then
      let kv := splitColon line
      { st with hand :=
          { st.hand with summary := updAssoc st.hand.summary (pstrip kv.1) (pstrip kv.2) } }
    else st
  else
    match actionMatch line with
    | some a => { st with hand := st.hand.pushAction st.cur ⟨a.player, a.action, pstrip a.detail⟩ }
    | none => st

/-- The `*** FLOP ***` marker branch (ft_hand_parser.py:86-99). -/
def onFlopMarker (st : PState) (line : List Char) : PState :=
  let st1 := { st with cur := Street.flop }
  match firstBracket line with
  | some g =>
    let gs := pstrip g
    let a : Action := ⟨str "Board", str "board", str "flop [" ++ gs ++ str "]"⟩
    { st1 with hand := Hand.pushAction { st1.hand with board_flop := splitWS gs } Street.flop a }
  | none => st1

/-- The `*** TURN ***` marker branch (ft_hand_parser.py:100-113). -/
def onTurnMarker (st : PState) (line : List Char) : PState :=
  let st1 := { st with cur := Street.turn }
  match allBrackets line with
  | [] => st1
  | p :: ps =>
    let tc := pstrip ((p :: ps).getLastD [])
    let a : Action := ⟨str "Board", str "board", str "turn [" ++ tc ++ str "]"⟩
    { st1 with hand := Hand.pushAction { st1.hand with board_turn := splitWS tc } Street.turn a }

/-- The `*** RIVER ***` marker branch (ft_hand_parser.py:114-126). -/
def onRiverMarker (st : PState) (line : List Char) : PState :=
  let st1 := { st with cur := Street.river }
  match allBrackets line with
  | [] => st1
  | p :: ps =>
    let rc := pstrip ((p :: ps).getLastD [])
    let a : Action := ⟨str "Board", str "board", str "river [" ++ rc ++ str "]"⟩
    { st1 with hand := Hand.pushAction { st1.hand with board_river := splitWS rc } Street.river a }

/-- The hole-cards capture branch (ft_hand_parser.py:134-142): consume a
    `Dealt to` line while the flag is set, else fall through. -/
def onHoleLine (st : PState) (line : List Char) : PState :=
  match dealtToMatch line with
  | some (nm, cds) =>
    { st with
      hand := { st.hand with hero := some (pstrip nm), hole_cards := some (pstrip cds) },
      holeSec := false }
  | none => seatSummaryAction st line

/-- One line of the `parse_hand` loop (ft_hand_parser.py:79-167). -/
def parseLine (st : PState) (line : List Char) : PState :=
  if st.failed then st
  else
    match buttonSearch line with
    | some n => { st with hand := { st.hand with button_seat := some n } }
    | none =>
      if (str "*** FLOP ***").isPrefixOf line then onFlopMarker st line
      else if (str "*** TURN ***").isPrefixOf line then onTurnMarker st line
      else if (str "*** RIVER ***").isPrefixOf line then onRiverMarker st line
      else if (str "*** SUMMARY ***").isPrefixOf line then
        { st with summarySec := true }
      else if (str "*** HOLE CARDS ***").isPrefixOf line then
        { st with holeSec := true }
      else if st.holeSec then onHoleLine st line
      else seatSummaryAction st line

/-- Embeds `parse_hand(lines)` (ft_hand_parser.py:46-168); `none` models the
    propagated exception. -/
def parseHandO (lines : List (List Char)) : Option Hand :=
  let fin := (lines.drop 1).foldl parseLine
    ⟨{ emptyHand with header := lines.headD [] }, Street.preflop, false, false, false⟩
  if fin.failed then none else some fin.hand

/-- The fixed hand-header literal (ft_hand_parser.py:23). -/
def headerPat : List Char := str "Full Tilt Poker Game #"

/-- The hand segmentation of `parse` (ft_hand_parser.py:17-44): accumulate
    lines, flush the accumulator at every header line, flush the remainder at
    end of file. -/
def groupsAux : List (List Char) → List (List Char) → List (List (List Char))
  | [], acc => if acc.isEmpty then [] else [acc]
  | l :: ls, acc =>
    if headerPat.isPrefixOf l then
      (if acc.isEmpty then [] else [acc]) ++ groupsAux ls [l]
    else groupsAux ls (acc ++ [l])

def parseGroups (lines : List (List Char)) : List (List (List Char)) :=
  groupsAux lines []

/-- Embeds `FullTiltHandParser.parse` on a file given as its list of lines (each with
    the trailing newline already removed, as by `rstrip('\n')`): each group is
    parsed in order; a failing hand re-raises and aborts the parse, modelled by
    `none`. -/
def parseFT (lines : List (List Char)) : Option (List Hand) :=
  (parseGroups lines).mapM parseHandO


/- ==================== Claim-side specification definitions ==================== -/

/-- Claim C1's pot formula, per action: `posts`/`antes`/`bets`/`calls` add the
    extracted amount, a raise adds `max(0, target - prior NON-ANTE street
    contribution)`, `uncalled` subtracts; antes are kept out of the
    contribution used for raise deltas, exactly as the claim words it. -/
def claimPotDelta (nonAnte : NameMap) (a : Action) : Int × NameMap :=
  if a.action = str "checks" || a.action = str "folds" || a.action = str "shows" ||
      a.action = str "mucks" || a.action = str "collected" || a.action = str "wins" ||
      a.action = str "is sitting out" || a.action = str "has returned" then (0, nonAnte)
  else if a.action = str "posts" then
    let amt := extract_first_amount a.detail
    (amt, updMap nonAnte a.player (nonAnte a.player + amt))
  else if a.action = str "antes" then
    (extract_first_amount a.detail, nonAnte)
  else if a.action = str "bets" then
    let amt := extract_first_amount a.detail
    (amt, updMap nonAnte a.player (nonAnte a.player + amt))
  else if a.action = str "calls" then
    let amt := extract_first_amount a.detail
    (amt, updMap nonAnte a.player (nonAnte a.player + amt))
  else if a.action = str "raises" then
    let target_total := extract_raise_to_amount a.detail
    let prev := nonAnte a.player
    let delta := max 0 (target_total - prev)
    (delta, updMap nonAnte a.player (prev + delta))
  else if a.action = str "uncalled" then
    let amt := extract_first_amount a.detail
    let recipient := if a.player ≠ [] then some a.player else extract_returned_to_name a.detail
    match recipient with
    | some r =>
      if r ≠ [] then (-amt, updMap nonAnte r (max 0 (nonAnte r - amt)))
      else (-amt, nonAnte)
    | none => (-amt, nonAnte)
  else (0, nonAnte)

/-- The signed pot increments of one street under claim C1's formula. -/
def claimStreetDeltas (nonAnte : NameMap) : List Action → List Int
  | [] => []
  | a :: rest =>
    (claimPotDelta nonAnte a).1 :: claimStreetDeltas (claimPotDelta nonAnte a).2 rest

/-- Claim C1's pot: the sum of all posts + antes + bets + calls amounts plus
    all raise deltas (relative to prior non-ante street contribution, reset
    each street) minus all uncalled returns, over the replayed prefix. -/
def claimPotSum (h : Hand) (ts : Street) (ti : Int) : Int :=
  match ts with
  | .preflop => (claimStreetDeltas zeroMap (prefixActs h .preflop ti)).sum
  | .flop =>
    (claimStreetDeltas zeroMap h.preflopA).sum +
      (claimStreetDeltas zeroMap (prefixActs h .flop ti)).sum
  | .turn =>
    (claimStreetDeltas zeroMap h.preflopA).sum + (claimStreetDeltas zeroMap h.flopA).sum +
      (claimStreetDeltas zeroMap (prefixActs h .turn ti)).sum
  | .river =>
    (claimStreetDeltas zeroMap h.preflopA).sum + (claimStreetDeltas zeroMap h.flopA).sum +
      (claimStreetDeltas zeroMap h.turnA).sum +
      (claimStreetDeltas zeroMap (prefixActs h .river ti)).sum

/-- The per-action pot increment as the code computes it: identical to claim
    C1's formula except that the contribution state feeding raise deltas also
    accumulates antes (the amended reading of the claim). -/
def potActionDelta (contrib : NameMap) (a : Action) : Int × NameMap :=
  if a.action = str "checks" || a.action = str "folds" || a.action = str "shows" ||
      a.action = str "mucks" || a.action = str "collected" || a.action = str "wins" ||
      a.action = str "is sitting out" || a.action = str "has returned" then (0, contrib)
  else if a.action = str "posts" || a.action = str "antes" then
    let amt := extract_first_amount a.detail
    (amt, updMap contrib a.player (contrib a.player + amt))
  else if a.action = str "bets" then
    let amt := extract_first_amount a.detail
    (amt, updMap contrib a.player (contrib a.player + amt))
  else if a.action = str "calls" then
    let amt := extract_first_amount a.detail
    (amt, updMap contrib a.player (contrib a.player + amt))
  else if a.action = str "raises" then
    let target_total := extract_raise_to_amount a.detail
    let prev := contrib a.player
    let delta := max 0 (target_total - prev)
    (delta, updMap contrib a.player (prev + delta))
  else if a.action = str "uncalled" then
    let amt := extract_first_amount a.detail
    let recipient := if a.player ≠ [] then some a.player else extract_returned_to_name a.detail
    match recipient with
    | some r =>
      if r ≠ [] then (-amt, updMap contrib r (max 0 (contrib r - amt)))
      else (-amt, contrib)
    | none => (-amt, contrib)
  else (0, contrib)

/-- The signed pot increments of one street with ante-inclusive contributions. -/
def potStreetDeltas (contrib : NameMap) : List Action → List Int
  | [] => []
  | a :: rest =>
    (potActionDelta contrib a).1 :: potStreetDeltas (potActionDelta contrib a).2 rest

/-- Amended claim C1's pot ledger: the same sum with raise deltas taken
    against the ante-inclusive contribution state. -/
def potLedger (h : Hand) (ts : Street) (ti : Int) : Int :=
  match ts with
  | .preflop => (potStreetDeltas zeroMap (prefixActs h .preflop ti)).sum
  | .flop =>
    (potStreetDeltas zeroMap h.preflopA).sum +
      (potStreetDeltas zeroMap (prefixActs h .flop ti)).sum
  | .turn =>
    (potStreetDeltas zeroMap h.preflopA).sum + (potStreetDeltas zeroMap h.flopA).sum +
      (potStreetDeltas zeroMap (prefixActs h .turn ti)).sum
  | .river =>
    (potStreetDeltas zeroMap h.preflopA).sum + (potStreetDeltas zeroMap h.flopA).sum +
      (potStreetDeltas zeroMap h.turnA).sum +
      (potStreetDeltas zeroMap (prefixActs h .river ti)).sum

/-- Claim C4's reading of plain amount extraction: the first integer-looking
    token of the text (the digit-and-comma run at the first digit), 0 if none. -/
def specFirstAmount (t : List Char) : Int :=
  match t.dropWhile (fun c => !c.isDigit) with
  | [] => 0
  | c :: rest => (amountVal (amountRun c rest) : Int)

theorem dropWhileLenLE {A : Type} (p : A → Bool) :
    ∀ ls : List A, (ls.dropWhile p).length ≤ ls.length := by
  intro ls
  induction ls with
  | nil => simp
  | cons a t ih =>
    by_cases h : p a
    · simp only [List.dropWhile, h]
      exact le_trans ih (by simp)
    · simp [List.dropWhile, h]

/-- The spec's segmentation contract (section 4.2 of the design): each group
    begins at a header line and runs until (but not including) the next
    header line or end of file. -/
def segmentSpec : List (List Char) → List (List (List Char))
  | [] => []
  | l :: ls =>
    (l :: ls.takeWhile (fun x => !(headerPat.isPrefixOf x))) ::
      segmentSpec (ls.dropWhile (fun x => !(headerPat.isPrefixOf x)))
termination_by l => l.length
decreasing_by
  simp only [List.length_cons]
  exact Nat.lt_succ_of_le (dropWhileLenLE _ _)

/-- Claim C10's per-player ledger step: the same shape as the stack loop but
    with the per-action amounts credited/debited unconditionally, with no
    empty-name / `Board` / non-positive-amount guards.  State: (signed ledger
    deltas, per-street non-ante contributions). -/
def ledgerStep (st : NameMap × NameMap) (a : Action) : NameMap × NameMap :=
  let delta := st.1
  let nonAnte := st.2
  let act := plower a.action
  if act = str "checks" || act = str "folds" || act = str "shows" ||
      act = str "mucks" || act = str "is sitting out" || act = str "has returned" then st
  else if act = str "posts" then
    let amt := extract_first_amount a.detail
    (updMap delta a.player (delta a.player - amt), updMap nonAnte a.player (nonAnte a.player + amt))
  else if act = str "antes" then
    let amt := extract_first_amount a.detail
    (updMap delta a.player (delta a.player - amt), nonAnte)
  else if act = str "bets" then
    let amt := extract_first_amount a.detail
    (updMap delta a.player (delta a.player - amt), updMap nonAnte a.player (nonAnte a.player + amt))
  else if act = str "calls" then
    let amt := extract_first_amount a.detail
    (updMap delta a.player (delta a.player - amt), updMap nonAnte a.player (nonAnte a.player + amt))
  else if act = str "raises" then
    let target_total := extract_raise_to_amount a.detail
    let prev := nonAnte a.player
    let d := max 0 (target_total - prev)
    (updMap delta a.player (delta a.player - d), updMap nonAnte a.player (prev + d))
  else if act = str "wins" || act = str "collected" then
    let amt := extract_first_amount a.detail
    (updMap delta a.player (delta a.player + amt), nonAnte)
  else if act = str "uncalled" then
    let amt := extract_first_amount a.detail
    let recipient := if a.player ≠ [] then some a.player else extract_returned_to_name a.detail
    match recipient with
    | some r =>
      if r ≠ [] then (updMap delta r (delta r + amt), updMap nonAnte r (max 0 (nonAnte r - amt)))
      else st
    | none => st
  else st

/-- One street of claim C10's ledger: a fresh non-ante map per street. -/
def ledgerStreet (delta : NameMap) (acts : List Action) : NameMap :=
  (acts.foldl ledgerStep (delta, zeroMap)).1

/-- Claim C10's stack value: seat-line starting chips plus the signed sum of
    every replayed amount touching the player (posts/antes/bets/calls/raise
    deltas subtracted; wins/collected and uncalled returns added). -/
def stackLedger (h : Hand) (ts : Street) (ti : Int) : NameMap :=
  fun p =>
    initStacks h p +
      (match ts with
       | .preflop => ledgerStreet zeroMap (stacksPrefix h .preflop ti)
       | .flop => ledgerStreet (ledgerStreet zeroMap h.preflopA) (stacksPrefix h .flop ti)
       | .turn =>
         ledgerStreet (ledgerStreet (ledgerStreet zeroMap h.preflopA) h.flopA)
           (stacksPrefix h .turn ti)
       | .river =>
         ledgerStreet
           (ledgerStreet (ledgerStreet (ledgerStreet zeroMap h.preflopA) h.flopA) h.turnA)
           (stacksPrefix h .river ti)) p

/- ==================== Concrete hands for the claims ==================== -/

/-- An ante followed by a raise by the same player on the same street. -/
def lsAnte : List (List Char) :=
  [str "Full Tilt Poker Game #10001: table A",
   str "Seat 1: Alice (1500)",
   str "Alice antes 25",
   str "Alice raises to 100"]

def hAnte : Hand := (parseHandO lsAnte).getD emptyHand

/-- A bet followed by a raw `Uncalled bet ... returned to ...` notice line. -/
def lsUnc : List (List Char) :=
  [str "Full Tilt Poker Game #10002: table A",
   str "Seat 1: Alice (1000)",
   str "Alice bets 50",
   str "Uncalled bet of 50 returned to Alice"]

def hUnc : Hand := (parseHandO lsUnc).getD emptyHand

/-- A raises line whose post-verb detail has an integer before the `to` clause. -/
def lsRto : List (List Char) :=
  [str "Full Tilt Poker Game #10003: table A",
   str "Seat 1: Alice (1500)",
   str "Alice raises 100 chips to 300"]

def hRto : Hand := (parseHandO lsRto).getD emptyHand

/-- The spec's section 8 example hand, verbatim: only Alice has a seat line. -/
def lsEx : List (List Char) :=
  [str "Full Tilt Poker Game #10004: table A",
   str "Seat 1: Alice (1500)",
   str "Alice posts the small blind 10",
   str "Bob posts the big blind 20",
   str "Alice raises to 60",
   str "Bob calls 40"]

def hEx : Hand := (parseHandO lsEx).getD emptyHand

/-- A file whose first line precedes the first hand header. -/
def lsJunk : List (List Char) :=
  [str "junk preamble line",
   str "Full Tilt Poker Game #10005: table A",
   str "Seat 1: Alice (100)"]

/-- A seat occupant named exactly `Board`, with a bet by that player. -/
def lsBoardSeat : List (List Char) :=
  [str "Full Tilt Poker Game #10006: table A",
   str "Seat 1: Board (100)",
   str "Board bets 50"]

def hBoardSeat : Hand := (parseHandO lsBoardSeat).getD emptyHand

/-- A hand used to witness the uncalled step effect directly on the action
    list (the parser itself never emits an `uncalled` action). -/
def hUncAct : Hand :=
  { emptyHand with
    players := [⟨1, str "Alice", 1000, false⟩],
    preflopA := [
      ⟨str "Alice", str "bets", str "50"⟩,
      ⟨str "Alice", str "uncalled", str "of 50 returned to Alice"⟩] }

/- ==================== Generic list lemmas ==================== -/

theorem isPre_take {A : Type} (l : List A) (n : Nat) : l.take n <+: l :=
  ⟨l.drop n, List.take_append_drop n l⟩

theorem isPre_take_le {A : Type} (l : List A) {m n : Nat} (h : m ≤ n) :
    l.take m <+: l.take n := by
  have heq : (l.take n).take m = l.take m := by
    rw [List.take_take, Nat.min_eq_left h]
  rw [← heq]
  exact isPre_take _ _

theorem isPre_append_left {A : Type} (l : List A) {t1 t2 : List A} (h : t1 <+: t2) :
    l ++ t1 <+: l ++ t2 := by
  obtain ⟨r, rfl⟩ := h
  exact ⟨r, by rw [List.append_assoc]⟩

theorem anyAppendMono {A : Type} (f : A → Bool) (l1 l2 : List A) (h : l1.any f = true) :
    (l1 ++ l2).any f = true := by
  simp only [List.any_append, h, Bool.true_or]

theorem anyOfPre {A : Type} (f : A → Bool) {l1 l2 : List A} (hp : l1 <+: l2)
    (h : l1.any f = true) : l2.any f = true := by
  obtain ⟨r, rfl⟩ := hp
  exact anyAppendMono f l1 r h

/- ==================== C9: cursor clamping ==================== -/

/-- The nearest in-range cursor index: `max (-1) (min ti (n - 1))`. -/
def clampIdx (ti : Int) (n : Nat) : Int := max (-1) (min ti ((n : Int) - 1))

theorem uptoCount_clamp (ti : Int) (n : Nat) :
    uptoCount (clampIdx ti n) n = uptoCount ti n := by
  unfold uptoCount clampIdx
  omega

theorem pyOrZero_id (i : Int) : pyOrZero i = i := by
  unfold pyOrZero
  split <;> omega

theorem prefixActs_clamp (h : Hand) (s : Street) (ti : Int) :
    prefixActs h s (clampIdx ti (h.actions s).length) = prefixActs h s ti := by
  unfold prefixActs
  rw [uptoCount_clamp]

theorem stacksPrefix_clamp (h : Hand) (s : Street) (ti : Int) :
    stacksPrefix h s (clampIdx ti (h.actions s).length) = stacksPrefix h s ti := by
  unfold stacksPrefix
  rw [pyOrZero_id, pyOrZero_id, uptoCount_clamp]

theorem boardSeen_clamp (w : List Char) (acts : List Action) (ti : Int) :
    boardSeen w acts (clampIdx ti acts.length) = boardSeen w acts ti := by
  unfold boardSeen
  rw [uptoCount_clamp]

/-- C9: reconstruction totality and cursor clamping.  Every reconstruction
    query is a total function here (the Python versions raise on none of
    these inputs), and each one's result at an arbitrary integer index equals
    its result at the index clamped to `[-1, last index of the street]`. -/
theorem reconstruction_clamped (h : Hand) (ts : Street) (ti : Int) :
    compute_pot_upto h ts ti =
      compute_pot_upto h ts (clampIdx ti (h.actions ts).length) ∧
    compute_street_contrib_upto h ts ti =
      compute_street_contrib_upto h ts (clampIdx ti (h.actions ts).length) ∧
    compute_stacks_upto h ts ti =
      compute_stacks_upto h ts (clampIdx ti (h.actions ts).length) ∧
    compute_board_upto h ts ti =
      compute_board_upto h ts (clampIdx ti (h.actions ts).length) ∧
    compute_folded_players_upto h ts ti =
      compute_folded_players_upto h ts (clampIdx ti (h.actions ts).length) := by
  refine ⟨?_, ?_, ?_, ?_, ?_⟩ <;> cases ts <;>
    simp only [compute_pot_upto, compute_street_contrib_upto, compute_stacks_upto,
      compute_board_upto, compute_folded_players_upto, replayedOrder, Hand.actions,
      prefixActs, stacksPrefix, boardSeen, pyOrZero_id, uptoCount_clamp]

/- ==================== C7: fold permanence ==================== -/

theorem folded_char (acts : List Action) : ∀ (m : List Char → Bool) (p : List Char),
    (acts.foldl foldedStep m) p =
      (m p || acts.any (fun a => isFoldAct a && p = a.player)) := by
  induction acts with
  | nil => intro m p; simp
  | cons a rest ih =>
    intro m p
    simp only [List.foldl_cons, List.any_cons]
    rw [ih]
    unfold foldedStep
    by_cases hf : isFoldAct a = true
    · by_cases hp : p = a.player <;>
        cases hm : m p <;> cases hr : rest.any (fun a => isFoldAct a && p = a.player) <;>
        simp [hf, hp, hm, hr]
    · cases hm : m p <;>
        cases hr : rest.any (fun a => isFoldAct a && p = a.player) <;>
        simp [hf, hm, hr]

theorem uptoCount_mono {j1 j2 : Int} (n : Nat) (hj : j1 ≤ j2) :
    uptoCount j1 n ≤ uptoCount j2 n := by
  unfold uptoCount
  omega

theorem replayedOrder_mono (h : Hand) (c1 c2 : Street × Int) (hle : cursorLE c1 c2) :
    replayedOrder h c1.1 c1.2 <+: replayedOrder h c2.1 c2.2 := by
  obtain ⟨s1, i1⟩ := c1
  obtain ⟨s2, i2⟩ := c2
  have hupto : ∀ (l : List Action) (j1 j2 : Int), j1 ≤ j2 →
      l.take (uptoCount j1 l.length) <+: l.take (uptoCount j2 l.length) :=
    fun l j1 j2 hj => isPre_take_le l (uptoCount_mono l.length hj)
  have hfull : ∀ (l : List Action) (j : Int), l.take (uptoCount j l.length) <+: l :=
    fun l j => isPre_take l _
  rcases hle with hlt | ⟨heq, hij⟩
  · cases s1 <;> cases s2 <;> simp only [Street.idx] at hlt <;> try omega
    all_goals simp only [replayedOrder, prefixActs, List.append_assoc]
    · exact (hfull _ i1).trans (List.prefix_append _ _)
    · exact (hfull _ i1).trans (List.prefix_append _ _)
    · exact (hfull _ i1).trans (List.prefix_append _ _)
    · exact isPre_append_left _ (((hfull _ i1).trans (List.prefix_append _ _)))
    · exact isPre_append_left _ (((hfull _ i1).trans (List.prefix_append _ _)))
    · exact isPre_append_left _ (isPre_append_left _ (((hfull _ i1).trans (List.prefix_append _ _))))
  · simp only at heq
    subst heq
    cases s1 <;> simp only [replayedOrder, prefixActs, List.append_assoc]
    · exact hupto _ _ _ hij
    · exact isPre_append_left _ (hupto _ _ _ hij)
    · exact isPre_append_left _ (isPre_append_left _ (hupto _ _ _ hij))
    · exact isPre_append_left _ (isPre_append_left _ (isPre_append_left _ (hupto _ _ _ hij)))

/-- C7: fold permanence.  For cursors `c1 <= c2` in the replay order, every
    player folded at `c1` (per `compute_folded_players_upto`) is folded at
    `c2`: the folded set is monotonically non-decreasing along the replay. -/
theorem folds_monotone (h : Hand) (c1 c2 : Street × Int) (hle : cursorLE c1 c2)
    (p : List Char) (hp : compute_folded_players_upto h c1.1 c1.2 p = true) :
    compute_folded_players_upto h c2.1 c2.2 p = true := by
  unfold compute_folded_players_upto at hp ⊢
  rw [folded_char] at hp ⊢
  simp only [Bool.false_or] at hp ⊢
  exact anyOfPre _ (replayedOrder_mono h c1 c2 hle) hp

/- ==================== C1: pot conservation ==================== -/

theorem potStep_delta (pot : Int) (m : NameMap) (a : Action) :
    potStep (pot, m) a = (pot + (potActionDelta m a).1, (potActionDelta m a).2) := by
  unfold potStep potActionDelta
  repeat' split
  all_goals simp
  all_goals (repeat' split)
  all_goals simp
  all_goals omega

theorem foldl_potStep_sum (acts : List Action) : ∀ (pot : Int) (m : NameMap),
    (acts.foldl potStep (pot, m)).1 = pot + (potStreetDeltas m acts).sum := by
  induction acts with
  | nil => intro pot m; simp [potStreetDeltas]
  | cons a rest ih =>
    intro pot m
    simp only [List.foldl_cons, potStreetDeltas, List.sum_cons]
    rw [potStep_delta, ih]
    omega

theorem streetPot_sum (pot : Int) (acts : List Action) :
    streetPot pot acts = pot + (potStreetDeltas zeroMap acts).sum := by
  unfold streetPot
  exact foldl_potStep_sum acts pot zeroMap

/-- Amended C1: the pot at every cursor is the sum, over the replayed prefix,
    of all `posts` + `antes` + `bets` + `calls` amounts plus all raise deltas
    minus all `uncalled` returns — where each raise delta is taken against the
    contribution state the pot computation actually tracks, which accumulates
    antes along with posts/bets/calls and clamps uncalled refunds at zero,
    and is reset at each street start. -/
theorem pot_conservation (h : Hand) (ts : Street) (ti : Int) :
    compute_pot_upto h ts ti = potLedger h ts ti := by
  cases ts <;>
    simp only [compute_pot_upto, potLedger, streetPot_sum] <;>
    omega

/- ==================== C3: uncalled-bet step effect ==================== -/

theorem extract_first_amount_nonneg (t : List Char) : 0 ≤ extract_first_amount t := by
  induction t with
  | nil => simp [extract_first_amount]
  | cons c rest ih =>
    unfold extract_first_amount
    split
    · exact Int.natCast_nonneg _
    · exact ih

theorem prefixActs_at (h : Hand) (s : Street) (k : Nat) (a : Action)
    (hk : (h.actions s)[k]? = some a) :
    prefixActs h s (k : Int) = prefixActs h s ((k : Int) - 1) ++ [a] := by
  unfold prefixActs
  have hlen : k < (h.actions s).length := by
    by_contra hc
    rw [List.getElem?_eq_none (by omega)] at hk
    exact Option.noConfusion hk
  have h1 : uptoCount (k : Int) (h.actions s).length = k + 1 := by
    unfold uptoCount
    omega
  have h2 : uptoCount ((k : Int) - 1) (h.actions s).length = k := by
    unfold uptoCount
    omega
  rw [h1, h2, List.take_succ, hk]
  simp

theorem stacksPrefix_eq (h : Hand) (s : Street) (ti : Int) :
    stacksPrefix h s ti = prefixActs h s ti := by
  unfold stacksPrefix prefixActs
  rw [pyOrZero_id]

theorem potStep_uncalled (st : Int × NameMap) (a : Action)
    (hu : a.action = str "uncalled") :
    (potStep st a).1 = st.1 - extract_first_amount a.detail := by
  obtain ⟨pot, m⟩ := st
  unfold potStep
  rw [hu]
  rw [if_neg (by decide), if_neg (by decide), if_neg (by decide), if_neg (by decide),
      if_neg (by decide), if_pos (by decide)]
  repeat' split
  all_goals simp only []
  all_goals repeat' split
  all_goals rfl

theorem contribStep_uncalled (st : NameMap × NameMap) (a : Action)
    (hu : a.action = str "uncalled") (hp : a.player ≠ []) :
    (contribStep st a).1 a.player =
      max 0 (st.1 a.player - extract_first_amount a.detail) := by
  obtain ⟨na, an⟩ := st
  unfold contribStep
  rw [hu]
  rw [if_neg (by decide), if_neg (by decide), if_neg (by decide), if_neg (by decide),
      if_neg (by decide), if_neg (by decide), if_pos (by decide)]
  simp only [hp, if_pos, ne_eq, not_false_iff]
  simp [updMap]

theorem stacksStep_uncalled (st : NameMap × NameMap) (a : Action)
    (hu : a.action = str "uncalled") (hp : a.player ≠ [])
    (hb : a.player ≠ str "Board") :
    (stacksStep st a).1 a.player = st.1 a.player + extract_first_amount a.detail := by
  obtain ⟨stks, na⟩ := st
  unfold stacksStep
  rw [hu]
  rw [if_neg (by decide), if_neg (by decide), if_neg (by decide), if_neg (by decide),
      if_neg (by decide), if_neg (by decide), if_neg (by decide), if_pos (by decide)]
  rw [if_pos (by simpa using hp)]
  simp only
  rw [if_pos (by simpa using hp)]
  simp only
  unfold add_to_stack
  by_cases hz : extract_first_amount a.detail ≤ 0
  · have h0 : extract_first_amount a.detail = 0 :=
      le_antisymm hz (extract_first_amount_nonneg _)
    simp [hp, hb, hz, h0]
  · simp [hp, hb, hz, updMap]

/-- Amended C3: the parser's action regex does not recognize the raw
    uncalled-bet notice line (no `uncalled` verb exists in its alternation),
    so parsed hands are unaffected by such lines; but whenever a hand's
    action list itself holds an `uncalled` action for amount N by a real
    player p, stepping the cursor onto it lowers the pot by N, lowers p's
    non-ante street contribution by N clamping at zero, and raises p's stack
    by N. -/
theorem uncalled_step (h : Hand) (s : Street) (k : Nat) (a : Action)
    (hk : (h.actions s)[k]? = some a)
    (hu : a.action = str "uncalled")
    (hp : a.player ≠ [])
    (hb : a.player ≠ str "Board") :
    compute_pot_upto h s (k : Int) =
      compute_pot_upto h s ((k : Int) - 1) - extract_first_amount a.detail ∧
    (compute_street_contrib_upto h s (k : Int)).1 a.player =
      max 0 ((compute_street_contrib_upto h s ((k : Int) - 1)).1 a.player -
        extract_first_amount a.detail) ∧
    compute_stacks_upto h s (k : Int) a.player =
      compute_stacks_upto h s ((k : Int) - 1) a.player + extract_first_amount a.detail := by
  refine ⟨?_, ?_, ?_⟩
  · cases s <;>
      simp only [compute_pot_upto] <;>
      rw [prefixActs_at h _ k a hk] <;>
      unfold streetPot <;>
      rw [List.foldl_append] <;>
      simp only [List.foldl_cons, List.foldl_nil] <;>
      exact potStep_uncalled _ a hu
  · unfold compute_street_contrib_upto
    rw [prefixActs_at h s k a hk, List.foldl_append]
    simp only [List.foldl_cons, List.foldl_nil]
    exact contribStep_uncalled _ a hu hp
  · cases s <;>
      simp only [compute_stacks_upto, stacksPrefix_eq] <;>
      rw [prefixActs_at h _ k a hk] <;>
      unfold stacksStreet <;>
      rw [List.foldl_append] <;>
      simp only [List.foldl_cons, List.foldl_nil] <;>
      exact stacksStep_uncalled _ a hu hp hb

/- ==================== C4: amount extraction ==================== -/

theorem specFirstAmount_eq (t : List Char) : extract_first_amount t = specFirstAmount t := by
  induction t with
  | nil => rfl
  | cons c rest ih =>
    by_cases hd : c.isDigit
    · simp [extract_first_amount, specFirstAmount, List.dropWhile, hd]
    · simp only [extract_first_amount, if_neg hd, ih]
      simp [specFirstAmount, List.dropWhile, hd]

theorem raisesToSearch_none (d : List Char) (hni : infixOf (str "raises") d = false) :
    raisesToSearch d = none := by
  induction d with
  | nil => rfl
  | cons c rest ih =>
    unfold infixOf at hni
    rw [Bool.or_eq_false_iff] at hni
    unfold raisesToSearch
    simp only [hni.1, Bool.false_eq_true, if_false]
    exact ih hni.2

/-- Amended C4: plain amount extraction takes the first integer-looking token
    of the detail (0 when there is none); the raise-target extractor searches
    the detail for `raises to <amount>` and, when the word `raises` does not
    occur in the detail — as for every parser-produced detail, where the verb
    has been stripped off — falls back to the first integer token. -/
theorem amount_extraction (t d : List Char)
    (hd : infixOf (str "raises") d = false) :
    extract_first_amount t = specFirstAmount t ∧
    extract_raise_to_amount d = extract_first_amount d := by
  constructor
  · exact specFirstAmount_eq t
  · unfold extract_raise_to_amount
    rw [raisesToSearch_none d hd]

/- ==================== C6: hand segmentation ==================== -/

theorem groupsAuxEq (ls : List (List Char)) : ∀ acc : List (List Char), acc ≠ [] →
    groupsAux ls acc =
      (acc ++ ls.takeWhile (fun x => !(headerPat.isPrefixOf x))) ::
        segmentSpec (ls.dropWhile (fun x => !(headerPat.isPrefixOf x))) := by
  induction ls with
  | nil =>
    intro acc hacc
    simp [groupsAux, segmentSpec, hacc]
  | cons l t ih =>
    intro acc hacc
    by_cases hh : headerPat.isPrefixOf l = true
    · simp only [groupsAux, hh, if_true, List.takeWhile, List.dropWhile,
        Bool.not_true, List.isEmpty_eq_true, hacc, if_false]
      rw [ih [l] (by simp)]
      rw [segmentSpec]
      simp [hh]
    · simp only [groupsAux, hh, Bool.false_eq_true, if_false, List.takeWhile,
        List.dropWhile, Bool.not_false]
      rw [ih (acc ++ [l]) (by simp)]
      simp [hh, List.append_assoc]

theorem headOfDropWhile {A : Type} (p : A → Bool) :
    ∀ (ls : List A) (x : A) (r : List A), ls.dropWhile p = x :: r → p x = false := by
  intro ls
  induction ls with
  | nil => intro x r hx; exact List.noConfusion hx
  | cons a t ih =>
    intro x r hx
    by_cases ha : p a
    · rw [List.dropWhile_cons_of_pos ha] at hx
      exact ih x r hx
    · rw [List.dropWhile_cons_of_neg ha] at hx
      cases hx
      exact Bool.eq_false_iff.mpr ha

theorem segmentSpec_heads (ls : List (List Char))
    (hh : ls = [] ∨ headerPat.isPrefixOf (ls.headD []) = true) :
    ∀ g ∈ segmentSpec ls, g ≠ [] ∧ headerPat.isPrefixOf (g.headD []) = true := by
  induction ls using segmentSpec.induct with
  | case1 => intro g hg; simp [segmentSpec] at hg
  | case2 l t ih =>
    intro g hg
    rw [segmentSpec] at hg
    rcases hh with hh | hh
    · exact List.noConfusion hh
    · simp only [List.headD_cons] at hh
      rcases List.mem_cons.mp hg with rfl | hg2
      · simp [hh]
      · apply ih _ g hg2
        rcases hdw : t.dropWhile (fun x => !(headerPat.isPrefixOf x)) with _ | ⟨x, r⟩
        · exact Or.inl rfl
        · right
          have := headOfDropWhile _ t x r hdw
          simp only [List.headD_cons]
          simpa using this

theorem pushAction_header (h : Hand) (s : Street) (a : Action) :
    (h.pushAction s a).header = h.header := by
  cases s <;> rfl

theorem seatSummaryAction_header (st : PState) (line : List Char) :
    (seatSummaryAction st line).hand.header = st.hand.header := by
  unfold seatSummaryAction
  repeat' split
  all_goals first
    | rfl
    | exact pushAction_header st.hand st.cur _

theorem onFlopMarker_header (st : PState) (line : List Char) :
    (onFlopMarker st line).hand.header = st.hand.header := by
  unfold onFlopMarker Hand.pushAction
  split <;> rfl

theorem onTurnMarker_header (st : PState) (line : List Char) :
    (onTurnMarker st line).hand.header = st.hand.header := by
  unfold onTurnMarker Hand.pushAction
  split <;> rfl

theorem onRiverMarker_header (st : PState) (line : List Char) :
    (onRiverMarker st line).hand.header = st.hand.header := by
  unfold onRiverMarker Hand.pushAction
  split <;> rfl

theorem onHoleLine_header (st : PState) (line : List Char) :
    (onHoleLine st line).hand.header = st.hand.header := by
  unfold onHoleLine
  split
  · rfl
  · exact seatSummaryAction_header st line

theorem parseLine_header (st : PState) (line : List Char) :
    (parseLine st line).hand.header = st.hand.header := by
  unfold parseLine
  repeat' split
  all_goals first
    | rfl
    | exact onFlopMarker_header st line
    | exact onTurnMarker_header st line
    | exact onRiverMarker_header st line
    | exact onHoleLine_header st line
    | exact seatSummaryAction_header st line

theorem foldl_parseLine_header (ls : List (List Char)) :
    ∀ st : PState, (ls.foldl parseLine st).hand.header = st.hand.header := by
  induction ls with
  | nil => intro st; rfl
  | cons l t ih =>
    intro st
    rw [List.foldl_cons, ih, parseLine_header]

theorem parseHandO_header (ls : List (List Char)) (h : Hand)
    (hp : parseHandO ls = some h) : h.header = ls.headD [] := by
  unfold parseHandO at hp
  simp only [] at hp
  split at hp
  · exact Option.noConfusion hp
  · cases hp
    rw [foldl_parseLine_header]

theorem mapM_mem {A B : Type} (f : A → Option B) :
    ∀ (l : List A) (r : List B), l.mapM f = some r → ∀ b ∈ r, ∃ a ∈ l, f a = some b := by
  intro l
  induction l with
  | nil =>
    intro r hr b hb
    simp only [List.mapM_nil, Option.pure_def, Option.some.injEq] at hr
    subst hr
    simp at hb
  | cons a t ih =>
    intro r hr b hb
    rw [List.mapM_cons] at hr
    simp only [Option.pure_def, Option.bind_eq_bind, Option.bind_eq_some,
      Option.some.injEq] at hr
    obtain ⟨b0, hb0, r0, hr0, hrr⟩ := hr
    subst hrr
    rcases List.mem_cons.mp hb with rfl | hbr
    · exact ⟨a, List.mem_cons_self a t, hb0⟩
    · obtain ⟨a1, ha1, hfa1⟩ := ih r0 hr0 b hbr
      exact ⟨a1, List.mem_cons_of_mem a ha1, hfa1⟩

/-- Amended C6: when the file's first line carries the fixed header literal
    (in particular when nothing precedes the first header), the parser's
    segmentation is exactly the spec contract — groups begin at header lines
    and run until the next header or end of file — and every successfully
    parsed hand's `header` field starts with the literal.  (With junk lines
    before the first header, the code instead emits a leading group of those
    lines as an extra hand; see the counterexample.) -/
theorem segmentation_ok (lines : List (List Char)) (hne : lines ≠ [])
    (hhd : headerPat.isPrefixOf (lines.headD []) = true) :
    parseGroups lines = segmentSpec lines ∧
    (∀ g ∈ parseGroups lines, g ≠ [] ∧ headerPat.isPrefixOf (g.headD []) = true) ∧
    (∀ hs, parseFT lines = some hs →
      ∀ hd ∈ hs, headerPat.isPrefixOf hd.header = true) := by
  obtain ⟨l, t, rfl⟩ : ∃ l t, lines = l :: t := by
    cases lines with
    | nil => exact absurd rfl hne
    | cons l t => exact ⟨l, t, rfl⟩
  simp only [List.headD_cons] at hhd
  have hgr : parseGroups (l :: t) = segmentSpec (l :: t) := by
    unfold parseGroups groupsAux
    rw [if_pos hhd]
    simp only [List.isEmpty_nil, if_true, List.nil_append]
    rw [groupsAuxEq t [l] (by simp)]
    rw [segmentSpec]
    simp
  refine ⟨hgr, ?_, ?_⟩
  · rw [hgr]
    exact segmentSpec_heads _ (Or.inr (by simpa using hhd))
  · intro hs hp hd hmem
    unfold parseFT at hp
    obtain ⟨g, hg, hgparse⟩ := mapM_mem parseHandO (parseGroups (l :: t)) hs hp hd hmem
    have hhead := parseHandO_header g hd hgparse
    have hprop : g ≠ [] ∧ headerPat.isPrefixOf (g.headD []) = true := by
      rw [hgr] at hg
      exact segmentSpec_heads _ (Or.inr (by simpa using hhd)) g hg
    rw [hhead]
    exact hprop.2

/- ==================== C8: board monotonicity ==================== -/

/-- The board cards recorded for a street. -/
def boardOf (h : Hand) : Street → List (List Char)
  | .preflop => []
  | .flop => h.board_flop
  | .turn => h.board_turn
  | .river => h.board_river

def streetWord : Street → List Char
  | .preflop => []
  | .flop => str "flop"
  | .turn => str "turn"
  | .river => str "river"

/-- Whether `compute_board_upto` at cursor `(ts, ti)` includes street `s`'s
    card segment: always for streets before the target, by the `boardSeen`
    scan on the target street, never for later streets. -/
def segIncluded (h : Hand) (ts : Street) (ti : Int) : Street → Bool
  | .preflop => false
  | .flop =>
    match ts with
    | .preflop => false
    | .flop => boardSeen (str "flop") h.flopA ti
    | .turn => true
    | .river => true
  | .turn =>
    match ts with
    | .turn => boardSeen (str "turn") h.turnA ti
    | .river => true
    | _ => false
  | .river =>
    match ts with
    | .river => boardSeen (str "river") h.riverA ti
    | _ => false

/-- Index of the first synthetic board action of a street in that street's
    action list (the list's length when there is none). -/
def boardIdx (h : Hand) (s : Street) : Nat :=
  (h.actions s).findIdx (boardActFor (streetWord s))

theorem board_decomp (h : Hand) (ts : Street) (ti : Int) :
    compute_board_upto h ts ti =
      (if segIncluded h ts ti .flop then h.board_flop else []) ++
      (if segIncluded h ts ti .turn then h.board_turn else []) ++
      (if segIncluded h ts ti .river then h.board_river else []) := by
  cases ts
  · simp [compute_board_upto, segIncluded]
  all_goals
    simp only [compute_board_upto, segIncluded, if_true, if_false, Bool.false_eq_true,
      List.append_nil, List.nil_append]

theorem boardSeen_mono (w : List Char) (acts : List Action) {i1 i2 : Int}
    (hij : i1 ≤ i2) (hs : boardSeen w acts i1 = true) : boardSeen w acts i2 = true := by
  unfold boardSeen at hs ⊢
  exact anyOfPre _ (isPre_take_le acts (uptoCount_mono acts.length hij)) hs

theorem board_upto_pre (h : Hand) (c1 c2 : Street × Int) (hle : cursorLE c1 c2) :
    compute_board_upto h c1.1 c1.2 <+: compute_board_upto h c2.1 c2.2 := by
  obtain ⟨s1, i1⟩ := c1
  obtain ⟨s2, i2⟩ := c2
  rcases hle with hlt | ⟨heq, hij⟩
  · cases s1 <;> cases s2 <;> simp only [Street.idx] at hlt <;> try omega
    all_goals simp only [compute_board_upto, List.append_assoc]
    · exact List.nil_prefix
    · exact List.nil_prefix
    · exact List.nil_prefix
    · split
      · exact List.prefix_append _ _
      · exact List.nil_prefix
    · split
      · exact List.prefix_append _ _
      · exact List.nil_prefix
    · refine isPre_append_left _ ?_
      split
      · exact List.prefix_append _ _
      · exact List.nil_prefix
  · simp only at heq
    subst heq
    cases s1 <;> simp only [compute_board_upto, List.append_assoc]
    · exact List.prefix_rfl
    · by_cases hs : boardSeen (str "flop") h.flopA i1 = true
      · rw [if_pos hs, if_pos (boardSeen_mono _ _ hij hs)]
      · rw [if_neg hs]
        exact List.nil_prefix
    · refine isPre_append_left _ ?_
      by_cases hs : boardSeen (str "turn") h.turnA i1 = true
      · rw [if_pos hs, if_pos (boardSeen_mono _ _ hij hs)]
      · rw [if_neg hs]
        exact List.nil_prefix
    · refine isPre_append_left _ (isPre_append_left _ ?_)
      by_cases hs : boardSeen (str "river") h.riverA i1 = true
      · rw [if_pos hs, if_pos (boardSeen_mono _ _ hij hs)]
      · rw [if_neg hs]
        exact List.nil_prefix

theorem findIdx_lt_of_any_take {A : Type} (f : A → Bool) :
    ∀ (l : List A) (n : Nat), (l.take n).any f = true → l.findIdx f < n := by
  intro l
  induction l with
  | nil => intro n hn; simp at hn
  | cons a t ih =>
    intro n hn
    cases n with
    | zero => simp at hn
    | succ m =>
      rw [List.take_succ_cons, List.any_cons] at hn
      by_cases hfa : f a = true
      · simp [List.findIdx_cons, hfa]
      · simp only [hfa, Bool.false_or] at hn
        simp only [List.findIdx_cons, hfa, cond_false]
        exact Nat.succ_lt_succ (ih m hn)

theorem findIdx_lt_of_any {A : Type} (f : A → Bool) (l : List A)
    (ha : l.any f = true) : l.findIdx f < l.length := by
  apply findIdx_lt_of_any_take
  rw [List.take_length]
  exact ha

/-- Board/action well-formedness established by the parser: a street has
    recorded board cards only when its action list holds a matching synthetic
    `board` action. -/
def BoardWF (h : Hand) : Prop :=
  (h.board_flop ≠ [] → h.flopA.any (boardActFor (str "flop")) = true) ∧
  (h.board_turn ≠ [] → h.turnA.any (boardActFor (str "turn")) = true) ∧
  (h.board_river ≠ [] → h.riverA.any (boardActFor (str "river")) = true)

theorem isPrefixOf_of_pre : ∀ (w l : List Char), w <+: l → w.isPrefixOf l = true := by
  intro w
  induction w with
  | nil => intro l _; simp [List.isPrefixOf]
  | cons c wt ih =>
    intro l hpre
    obtain ⟨t, rfl⟩ := hpre
    simp only [List.cons_append, List.isPrefixOf, BEq.refl, Bool.true_and]
    exact ih (wt ++ t) ⟨t, rfl⟩

theorem infixOf_of_pre (w l : List Char) (h : w <+: l) : infixOf w l = true := by
  cases l with
  | nil =>
    obtain ⟨t, ht⟩ := h
    have : w = [] := by
      cases w with
      | nil => rfl
      | cons c wt => exact List.noConfusion ht
    simp [this, infixOf]
  | cons c rest =>
    unfold infixOf
    rw [isPrefixOf_of_pre w (c :: rest) h]
    rfl

theorem plower_append (a b : List Char) : plower (a ++ b) = plower a ++ plower b := by
  unfold plower
  exact List.map_append _ a b

theorem boardActSynth (s : Street) (hs : s ≠ Street.preflop) (gs : List Char) :
    boardActFor (streetWord s)
      ⟨str "Board", str "board", streetWord s ++ str " [" ++ gs ++ str "]"⟩ = true := by
  unfold boardActFor
  simp only [decide_eq_true_eq, Bool.and_eq_true]
  refine ⟨by decide, ?_⟩
  apply infixOf_of_pre
  rw [show streetWord s ++ str " [" ++ gs ++ str "]" =
        streetWord s ++ (str " [" ++ gs ++ str "]") by simp [List.append_assoc]]
  rw [plower_append]
  have hlw : plower (streetWord s) = streetWord s := by
    cases s <;> decide
  rw [hlw]
  exact ⟨_, rfl⟩

theorem any_concat {A : Type} (f : A → Bool) (l : List A) (a : A) (ha : f a = true) :
    (l ++ [a]).any f = true := by
  simp [List.any_append, ha]

theorem pushAction_WF (h : Hand) (s : Street) (a : Action) (hw : BoardWF h) :
    BoardWF (h.pushAction s a) := by
  obtain ⟨h1, h2, h3⟩ := hw
  cases s <;>
    exact ⟨fun hb => by first | exact h1 hb | exact anyAppendMono _ _ _ (h1 hb),
           fun hb => by first | exact h2 hb | exact anyAppendMono _ _ _ (h2 hb),
           fun hb => by first | exact h3 hb | exact anyAppendMono _ _ _ (h3 hb)⟩

theorem seatSummaryAction_WF (st : PState) (line : List Char) (hw : BoardWF st.hand) :
    BoardWF (seatSummaryAction st line).hand := by
  unfold seatSummaryAction
  repeat' split
  all_goals first
    | exact hw
    | exact pushAction_WF st.hand st.cur _ hw

theorem onFlopMarker_WF (st : PState) (line : List Char) (hw : BoardWF st.hand) :
    BoardWF (onFlopMarker st line).hand := by
  unfold onFlopMarker
  rcases hfb : firstBracket line with _ | g <;> simp only [hfb]
  · exact hw
  · refine ⟨fun _ => ?_, fun hb => hw.2.1 hb, fun hb => hw.2.2 hb⟩
    exact any_concat _ _ _ (boardActSynth Street.flop (by decide) (pstrip g))

theorem onTurnMarker_WF (st : PState) (line : List Char) (hw : BoardWF st.hand) :
    BoardWF (onTurnMarker st line).hand := by
  unfold onTurnMarker
  rcases hab : allBrackets line with _ | ⟨p, ps⟩ <;> simp only [hab]
  · exact hw
  · refine ⟨fun hb => hw.1 hb, fun _ => ?_, fun hb => hw.2.2 hb⟩
    exact any_concat _ _ _ (boardActSynth Street.turn (by decide) (pstrip ((p :: ps).getLastD [])))

theorem onRiverMarker_WF (st : PState) (line : List Char) (hw : BoardWF st.hand) :
    BoardWF (onRiverMarker st line).hand := by
  unfold onRiverMarker
  rcases hab : allBrackets line with _ | ⟨p, ps⟩ <;> simp only [hab]
  · exact hw
  · refine ⟨fun hb => hw.1 hb, fun hb => hw.2.1 hb, fun _ => ?_⟩
    exact any_concat _ _ _ (boardActSynth Street.river (by decide) (pstrip ((p :: ps).getLastD [])))

theorem onHoleLine_WF (st : PState) (line : List Char) (hw : BoardWF st.hand) :
    BoardWF (onHoleLine st line).hand := by
  unfold onHoleLine
  split
  · exact hw
  · exact seatSummaryAction_WF st line hw

theorem parseLine_WF (st : PState) (line : List Char) (hw : BoardWF st.hand) :
    BoardWF (parseLine st line).hand := by
  unfold parseLine
  repeat' split
  all_goals first
    | exact hw
    | exact onFlopMarker_WF st line hw
    | exact onTurnMarker_WF st line hw
    | exact onRiverMarker_WF st line hw
    | exact onHoleLine_WF st line hw
    | exact seatSummaryAction_WF st line hw

theorem foldl_parseLine_WF (ls : List (List Char)) :
    ∀ st : PState, BoardWF st.hand → BoardWF ((ls.foldl parseLine st).hand) := by
  induction ls with
  | nil => intro st hw; exact hw
  | cons l t ih =>
    intro st hw
    rw [List.foldl_cons]
    exact ih _ (parseLine_WF st l hw)

theorem parseHandO_WF (ls : List (List Char)) (h : Hand)
    (hp : parseHandO ls = some h) : BoardWF h := by
  unfold parseHandO at hp
  simp only [] at hp
  split at hp
  · exact Option.noConfusion hp
  · cases hp
    apply foldl_parseLine_WF
    exact ⟨fun hb => absurd rfl hb, fun hb => absurd rfl hb, fun hb => absurd rfl hb⟩

theorem seenBound (w : List Char) (acts : List Action) (ti : Int)
    (hs : boardSeen w acts ti = true) :
    acts.findIdx (boardActFor w) < acts.length ∧
    (acts.findIdx (boardActFor w) : Int) ≤ ti := by
  unfold boardSeen at hs
  have hidx := findIdx_lt_of_any_take (boardActFor w) acts _ hs
  unfold uptoCount at hidx
  constructor <;> omega

theorem board_only_after (lines : List (List Char)) (h : Hand)
    (hp : parseHandO lines = some h) (c : Street × Int) (s : Street)
    (hs : segIncluded h c.1 c.2 s = true) (hb : boardOf h s ≠ []) :
    boardIdx h s < (h.actions s).length ∧ cursorLE (s, (boardIdx h s : Int)) c := by
  obtain ⟨ts, ti⟩ := c
  have hwf := parseHandO_WF lines h hp
  cases s
  · simp [segIncluded] at hs
  · cases ts
    · simp [segIncluded] at hs
    · obtain ⟨hl, hle'⟩ := seenBound (str "flop") h.flopA ti hs
      exact ⟨hl, Or.inr ⟨rfl, hle'⟩⟩
    · exact ⟨findIdx_lt_of_any _ _ (hwf.1 hb), Or.inl (by simp [Street.idx])⟩
    · exact ⟨findIdx_lt_of_any _ _ (hwf.1 hb), Or.inl (by simp [Street.idx])⟩
  · cases ts
    · simp [segIncluded] at hs
    · simp [segIncluded] at hs
    · obtain ⟨hl, hle'⟩ := seenBound (str "turn") h.turnA ti hs
      exact ⟨hl, Or.inr ⟨rfl, hle'⟩⟩
    · exact ⟨findIdx_lt_of_any _ _ (hwf.2.1 hb), Or.inl (by simp [Street.idx])⟩
  · cases ts
    · simp [segIncluded] at hs
    · simp [segIncluded] at hs
    · simp [segIncluded] at hs
    · obtain ⟨hl, hle'⟩ := seenBound (str "river") h.riverA ti hs
      exact ⟨hl, Or.inr ⟨rfl, hle'⟩⟩

/-- C8: board monotonicity.  For a parsed hand, the visible board at cursor
    `c1 <= c2` is a prefix, in reveal order, of the visible board at `c2`
    (the board is the concatenation of the included street segments, see
    `board_decomp`); and a street's card segment is included at a cursor only
    when that street's synthetic `board` action exists and its position has
    been reached by the cursor. -/
theorem board_monotone (lines : List (List Char)) (h : Hand)
    (hp : parseHandO lines = some h) (c1 c2 : Street × Int) (hle : cursorLE c1 c2) :
    (compute_board_upto h c1.1 c1.2 <+: compute_board_upto h c2.1 c2.2) ∧
    (∀ s : Street, segIncluded h c2.1 c2.2 s = true → boardOf h s ≠ [] →
      boardIdx h s < (h.actions s).length ∧ cursorLE (s, (boardIdx h s : Int)) c2) :=
  ⟨board_upto_pre h c1 c2 hle, fun s hs hb => board_only_after lines h hp c2 s hs hb⟩

/- ==================== C10: exact integer stack ledger ==================== -/

theorem updMap_self (m : NameMap) (k : List Char) (v : Int) : updMap m k v k = v := by
  simp [updMap]

theorem updMap_other (m : NameMap) (k : List Char) (v : Int) (x : List Char)
    (hx : x ≠ k) : updMap m k v x = m x := by
  simp [updMap, hx]

theorem subLedger (stks delta base : NameMap) (nm : List Char) (amt : Int)
    (hamt : 0 ≤ amt)
    (hrel : ∀ p, p ≠ [] → p ≠ str "Board" → stks p = base p + delta p) :
    ∀ p, p ≠ [] → p ≠ str "Board" →
      sub_from_stack stks nm amt p = base p + updMap delta nm (delta nm - amt) p := by
  intro p hp hb
  unfold sub_from_stack
  split
  · rename_i hg
    simp only [Bool.or_eq_true, decide_eq_true_eq] at hg
    by_cases hk : p = nm
    · subst hk
      rcases hg with (hg | hg) | hg
      · exact absurd hg hp
      · exact absurd hg hb
      · have h0 : amt = 0 := le_antisymm hg hamt
        rw [updMap_self, hrel p hp hb, h0]
        ring
    · rw [updMap_other _ _ _ _ hk, hrel p hp hb]
  · by_cases hk : p = nm
    · subst hk
      rw [updMap_self, updMap_self, hrel p hp hb]
      ring
    · rw [updMap_other _ _ _ _ hk, updMap_other _ _ _ _ hk, hrel p hp hb]

theorem addLedger (stks delta base : NameMap) (nm : List Char) (amt : Int)
    (hamt : 0 ≤ amt)
    (hrel : ∀ p, p ≠ [] → p ≠ str "Board" → stks p = base p + delta p) :
    ∀ p, p ≠ [] → p ≠ str "Board" →
      add_to_stack stks nm amt p = base p + updMap delta nm (delta nm + amt) p := by
  intro p hp hb
  unfold add_to_stack
  split
  · rename_i hg
    simp only [Bool.or_eq_true, decide_eq_true_eq] at hg
    by_cases hk : p = nm
    · subst hk
      rcases hg with (hg | hg) | hg
      · exact absurd hg hp
      · exact absurd hg hb
      · have h0 : amt = 0 := le_antisymm hg hamt
        rw [updMap_self, hrel p hp hb, h0]
        ring
    · rw [updMap_other _ _ _ _ hk, hrel p hp hb]
  · by_cases hk : p = nm
    · subst hk
      rw [updMap_self, updMap_self, hrel p hp hb]
      ring
    · rw [updMap_other _ _ _ _ hk, updMap_other _ _ _ _ hk, hrel p hp hb]

theorem stacksStep_skip (stks na : NameMap) (a : Action)
    (h1 : (plower a.action = str "checks" || plower a.action = str "folds" ||
        plower a.action = str "shows" || plower a.action = str "mucks" ||
        plower a.action = str "is sitting out" ||
        plower a.action = str "has returned") = true) :
    stacksStep (stks, na) a = (stks, na) := by
  unfold stacksStep
  rw [if_pos h1]

theorem ledgerStep_skip (delta na : NameMap) (a : Action)
    (h1 : (plower a.action = str "checks" || plower a.action = str "folds" ||
        plower a.action = str "shows" || plower a.action = str "mucks" ||
        plower a.action = str "is sitting out" ||
        plower a.action = str "has returned") = true) :
    ledgerStep (delta, na) a = (delta, na) := by
  unfold ledgerStep
  rw [if_pos h1]

theorem stacksStep_posts (stks na : NameMap) (a : Action)
    (h1 : ¬(plower a.action = str "checks" || plower a.action = str "folds" ||
        plower a.action = str "shows" || plower a.action = str "mucks" ||
        plower a.action = str "is sitting out" ||
        plower a.action = str "has returned") = true)
    (h2 : plower a.action = str "posts") :
    stacksStep (stks, na) a =
      (sub_from_stack stks a.player (extract_first_amount a.detail),
        updMap na a.player (na a.player + extract_first_amount a.detail)) := by
  unfold stacksStep
  rw [if_neg h1, if_pos h2]

theorem ledgerStep_posts (delta na : NameMap) (a : Action)
    (h1 : ¬(plower a.action = str "checks" || plower a.action = str "folds" ||
        plower a.action = str "shows" || plower a.action = str "mucks" ||
        plower a.action = str "is sitting out" ||
        plower a.action = str "has returned") = true)
    (h2 : plower a.action = str "posts") :
    ledgerStep (delta, na) a =
      (updMap delta a.player (delta a.player - extract_first_amount a.detail),
        updMap na a.player (na a.player + extract_first_amount a.detail)) := by
  unfold ledgerStep
  rw [if_neg h1, if_pos h2]

theorem stacksStep_antes (stks na : NameMap) (a : Action)
    (h1 : ¬(plower a.action = str "checks" || plower a.action = str "folds" ||
        plower a.action = str "shows" || plower a.action = str "mucks" ||
        plower a.action = str "is sitting out" ||
        plower a.action = str "has returned") = true)
    (h2 : ¬plower a.action = str "posts")
    (h3 : plower a.action = str "antes") :
    stacksStep (stks, na) a =
      (sub_from_stack stks a.player (extract_first_amount a.detail), na) := by
  unfold stacksStep
  rw [if_neg h1, if_neg h2, if_pos h3]

theorem ledgerStep_antes (delta na : NameMap) (a : Action)
    (h1 : ¬(plower a.action = str "checks" || plower a.action = str "folds" ||
        plower a.action = str "shows" || plower a.action = str "mucks" ||
        plower a.action = str "is sitting out" ||
        plower a.action = str "has returned") = true)
    (h2 : ¬plower a.action = str "posts")
    (h3 : plower a.action = str "antes") :
    ledgerStep (delta, na) a =
      (updMap delta a.player (delta a.player - extract_first_amount a.detail), na) := by
  unfold ledgerStep
  rw [if_neg h1, if_neg h2, if_pos h3]

theorem stacksStep_bets (stks na : NameMap) (a : Action)
    (h1 : ¬(plower a.action = str "checks" || plower a.action = str "folds" ||
        plower a.action = str "shows" || plower a.action = str "mucks" ||
        plower a.action = str "is sitting out" ||
        plower a.action = str "has returned") = true)
    (h2 : ¬plower a.action = str "posts")
    (h3 : ¬plower a.action = str "antes")
    (h4 : plower a.action = str "bets") :
    stacksStep (stks, na) a =
      (sub_from_stack stks a.player (extract_first_amount a.detail),
        updMap na a.player (na a.player + extract_first_amount a.detail)) := by
  unfold stacksStep
  rw [if_neg h1, if_neg h2, if_neg h3, if_pos h4]

theorem ledgerStep_bets (delta na : NameMap) (a : Action)
    (h1 : ¬(plower a.action = str "checks" || plower a.action = str "folds" ||
        plower a.action = str "shows" || plower a.action = str "mucks" ||
        plower a.action = str "is sitting out" ||
        plower a.action = str "has returned") = true)
    (h2 : ¬plower a.action = str "posts")
    (h3 : ¬plower a.action = str "antes")
    (h4 : plower a.action = str "bets") :
    ledgerStep (delta, na) a =
      (updMap delta a.player (delta a.player - extract_first_amount a.detail),
        updMap na a.player (na a.player + extract_first_amount a.detail)) := by
  unfold ledgerStep
  rw [if_neg h1, if_neg h2, if_neg h3, if_pos h4]

theorem stacksStep_calls (stks na : NameMap) (a : Action)
    (h1 : ¬(plower a.action = str "checks" || plower a.action = str "folds" ||
        plower a.action = str "shows" || plower a.action = str "mucks" ||
        plower a.action = str "is sitting out" ||
        plower a.action = str "has returned") = true)
    (h2 : ¬plower a.action = str "posts")
    (h3 : ¬plower a.action = str "antes")
    (h4 : ¬plower a.action = str "bets")
    (h5 : plower a.action = str "calls") :
    stacksStep (stks, na) a =
      (sub_from_stack stks a.player (extract_first_amount a.detail),
        updMap na a.player (na a.player + extract_first_amount a.detail)) := by
  unfold stacksStep
  rw [if_neg h1, if_neg h2, if_neg h3, if_neg h4, if_pos h5]

theorem ledgerStep_calls (delta na : NameMap) (a : Action)
    (h1 : ¬(plower a.action = str "checks" || plower a.action = str "folds" ||
        plower a.action = str "shows" || plower a.action = str "mucks" ||
        plower a.action = str "is sitting out" ||
        plower a.action = str "has returned") = true)
    (h2 : ¬plower a.action = str "posts")
    (h3 : ¬plower a.action = str "antes")
    (h4 : ¬plower a.action = str "bets")
    (h5 : plower a.action = str "calls") :
    ledgerStep (delta, na) a =
      (updMap delta a.player (delta a.player - extract_first_amount a.detail),
        updMap na a.player (na a.player + extract_first_amount a.detail)) := by
  unfold ledgerStep
  rw [if_neg h1, if_neg h2, if_neg h3, if_neg h4, if_pos h5]

theorem stacksStep_raises (stks na : NameMap) (a : Action)
    (h1 : ¬(plower a.action = str "checks" || plower a.action = str "folds" ||
        plower a.action = str "shows" || plower a.action = str "mucks" ||
        plower a.action = str "is sitting out" ||
        plower a.action = str "has returned") = true)
    (h2 : ¬plower a.action = str "posts")
    (h3 : ¬plower a.action = str "antes")
    (h4 : ¬plower a.action = str "bets")
    (h5 : ¬plower a.action = str "calls")
    (h6 : plower a.action = str "raises") :
    stacksStep (stks, na) a =
      (sub_from_stack stks a.player
          (max 0 (extract_raise_to_amount a.detail - na a.player)),
        updMap na a.player
          (na a.player + max 0 (extract_raise_to_amount a.detail - na a.player))) := by
  unfold stacksStep
  rw [if_neg h1, if_neg h2, if_neg h3, if_neg h4, if_neg h5, if_pos h6]

theorem ledgerStep_raises (delta na : NameMap) (a : Action)
    (h1 : ¬(plower a.action = str "checks" || plower a.action = str "folds" ||
        plower a.action = str "shows" || plower a.action = str "mucks" ||
        plower a.action = str "is sitting out" ||
        plower a.action = str "has returned") = true)
    (h2 : ¬plower a.action = str "posts")
    (h3 : ¬plower a.action = str "antes")
    (h4 : ¬plower a.action = str "bets")
    (h5 : ¬plower a.action = str "calls")
    (h6 : plower a.action = str "raises") :
    ledgerStep (delta, na) a =
      (updMap delta a.player
          (delta a.player - max 0 (extract_raise_to_amount a.detail - na a.player)),
        updMap na a.player
          (na a.player + max 0 (extract_raise_to_amount a.detail - na a.player))) := by
  unfold ledgerStep
  rw [if_neg h1, if_neg h2, if_neg h3, if_neg h4, if_neg h5, if_pos h6]

theorem stacksStep_wins (stks na : NameMap) (a : Action)
    (h1 : ¬(plower a.action = str "checks" || plower a.action = str "folds" ||
        plower a.action = str "shows" || plower a.action = str "mucks" ||
        plower a.action = str "is sitting out" ||
        plower a.action = str "has returned") = true)
    (h2 : ¬plower a.action = str "posts")
    (h3 : ¬plower a.action = str "antes")
    (h4 : ¬plower a.action = str "bets")
    (h5 : ¬plower a.action = str "calls")
    (h6 : ¬plower a.action = str "raises")
    (h7 : (plower a.action = str "wins" || plower a.action = str "collected") = true) :
    stacksStep (stks, na) a =
      (add_to_stack stks a.player (extract_first_amount a.detail), na) := by
  unfold stacksStep
  rw [if_neg h1, if_neg h2, if_neg h3, if_neg h4, if_neg h5, if_neg h6, if_pos h7]

theorem ledgerStep_wins (delta na : NameMap) (a : Action)
    (h1 : ¬(plower a.action = str "checks" || plower a.action = str "folds" ||
        plower a.action = str "shows" || plower a.action = str "mucks" ||
        plower a.action = str "is sitting out" ||
        plower a.action = str "has returned") = true)
    (h2 : ¬plower a.action = str "posts")
    (h3 : ¬plower a.action = str "antes")
    (h4 : ¬plower a.action = str "bets")
    (h5 : ¬plower a.action = str "calls")
    (h6 : ¬plower a.action = str "raises")
    (h7 : (plower a.action = str "wins" || plower a.action = str "collected") = true) :
    ledgerStep (delta, na) a =
      (updMap delta a.player (delta a.player + extract_first_amount a.detail), na) := by
  unfold ledgerStep
  rw [if_neg h1, if_neg h2, if_neg h3, if_neg h4, if_neg h5, if_neg h6, if_pos h7]

theorem stacksStep_unc (stks na : NameMap) (a : Action)
    (h1 : ¬(plower a.action = str "checks" || plower a.action = str "folds" ||
        plower a.action = str "shows" || plower a.action = str "mucks" ||
        plower a.action = str "is sitting out" ||
        plower a.action = str "has returned") = true)
    (h2 : ¬plower a.action = str "posts")
    (h3 : ¬plower a.action = str "antes")
    (h4 : ¬plower a.action = str "bets")
    (h5 : ¬plower a.action = str "calls")
    (h6 : ¬plower a.action = str "raises")
    (h7 : ¬(plower a.action = str "wins" || plower a.action = str "collected") = true)
    (h8 : plower a.action = str "uncalled") :
    stacksStep (stks, na) a =
      (match (if a.player ≠ [] then some a.player else extract_returned_to_name a.detail) with
       | some r =>
         if r ≠ [] then
           (add_to_stack stks r (extract_first_amount a.detail),
             updMap na r (max 0 (na r - extract_first_amount a.detail)))
         else (stks, na)
       | none => (stks, na)) := by
  unfold stacksStep
  rw [if_neg h1, if_neg h2, if_neg h3, if_neg h4, if_neg h5, if_neg h6, if_neg h7, if_pos h8]

theorem ledgerStep_unc (delta na : NameMap) (a : Action)
    (h1 : ¬(plower a.action = str "checks" || plower a.action = str "folds" ||
        plower a.action = str "shows" || plower a.action = str "mucks" ||
        plower a.action = str "is sitting out" ||
        plower a.action = str "has returned") = true)
    (h2 : ¬plower a.action = str "posts")
    (h3 : ¬plower a.action = str "antes")
    (h4 : ¬plower a.action = str "bets")
    (h5 : ¬plower a.action = str "calls")
    (h6 : ¬plower a.action = str "raises")
    (h7 : ¬(plower a.action = str "wins" || plower a.action = str "collected") = true)
    (h8 : plower a.action = str "uncalled") :
    ledgerStep (delta, na) a =
      (match (if a.player ≠ [] then some a.player else extract_returned_to_name a.detail) with
       | some r =>
         if r ≠ [] then
           (updMap delta r (delta r + extract_first_amount a.detail),
             updMap na r (max 0 (na r - extract_first_amount a.detail)))
         else (delta, na)
       | none => (delta, na)) := by
  unfold ledgerStep
  rw [if_neg h1, if_neg h2, if_neg h3, if_neg h4, if_neg h5, if_neg h6, if_neg h7, if_pos h8]

theorem stacksStep_other (stks na : NameMap) (a : Action)
    (h1 : ¬(plower a.action = str "checks" || plower a.action = str "folds" ||
        plower a.action = str "shows" || plower a.action = str "mucks" ||
        plower a.action = str "is sitting out" ||
        plower a.action = str "has returned") = true)
    (h2 : ¬plower a.action = str "posts")
    (h3 : ¬plower a.action = str "antes")
    (h4 : ¬plower a.action = str "bets")
    (h5 : ¬plower a.action = str "calls")
    (h6 : ¬plower a.action = str "raises")
    (h7 : ¬(plower a.action = str "wins" || plower a.action = str "collected") = true)
    (h8 : ¬plower a.action = str "uncalled") :
    stacksStep (stks, na) a = (stks, na) := by
  unfold stacksStep
  rw [if_neg h1, if_neg h2, if_neg h3, if_neg h4, if_neg h5, if_neg h6, if_neg h7, if_neg h8]

theorem ledgerStep_other (delta na : NameMap) (a : Action)
    (h1 : ¬(plower a.action = str "checks" || plower a.action = str "folds" ||
        plower a.action = str "shows" || plower a.action = str "mucks" ||
        plower a.action = str "is sitting out" ||
        plower a.action = str "has returned") = true)
    (h2 : ¬plower a.action = str "posts")
    (h3 : ¬plower a.action = str "antes")
    (h4 : ¬plower a.action = str "bets")
    (h5 : ¬plower a.action = str "calls")
    (h6 : ¬plower a.action = str "raises")
    (h7 : ¬(plower a.action = str "wins" || plower a.action = str "collected") = true)
    (h8 : ¬plower a.action = str "uncalled") :
    ledgerStep (delta, na) a = (delta, na) := by
  unfold ledgerStep
  rw [if_neg h1, if_neg h2, if_neg h3, if_neg h4, if_neg h5, if_neg h6, if_neg h7, if_neg h8]

theorem stacksLedgerStep (a : Action) (stks delta na base : NameMap)
    (hrel : ∀ p, p ≠ [] → p ≠ str "Board" → stks p = base p + delta p) :
    (stacksStep (stks, na) a).2 = (ledgerStep (delta, na) a).2 ∧
    (∀ p, p ≠ [] → p ≠ str "Board" →
      (stacksStep (stks, na) a).1 p = base p + (ledgerStep (delta, na) a).1 p) := by
  by_cases h1 : (plower a.action = str "checks" || plower a.action = str "folds" ||
      plower a.action = str "shows" || plower a.action = str "mucks" ||
      plower a.action = str "is sitting out" ||
      plower a.action = str "has returned") = true
  · rw [stacksStep_skip stks na a h1, ledgerStep_skip delta na a h1]
    exact ⟨rfl, fun p hp hb => hrel p hp hb⟩
  by_cases h2 : plower a.action = str "posts"
  · rw [stacksStep_posts stks na a h1 h2, ledgerStep_posts delta na a h1 h2]
    exact ⟨rfl, subLedger stks delta base _ _ (extract_first_amount_nonneg _) hrel⟩
  by_cases h3 : plower a.action = str "antes"
  · rw [stacksStep_antes stks na a h1 h2 h3, ledgerStep_antes delta na a h1 h2 h3]
    exact ⟨rfl, subLedger stks delta base _ _ (extract_first_amount_nonneg _) hrel⟩
  by_cases h4 : plower a.action = str "bets"
  · rw [stacksStep_bets stks na a h1 h2 h3 h4, ledgerStep_bets delta na a h1 h2 h3 h4]
    exact ⟨rfl, subLedger stks delta base _ _ (extract_first_amount_nonneg _) hrel⟩
  by_cases h5 : plower a.action = str "calls"
  · rw [stacksStep_calls stks na a h1 h2 h3 h4 h5,
      ledgerStep_calls delta na a h1 h2 h3 h4 h5]
    exact ⟨rfl, subLedger stks delta base _ _ (extract_first_amount_nonneg _) hrel⟩
  by_cases h6 : plower a.action = str "raises"
  · rw [stacksStep_raises stks na a h1 h2 h3 h4 h5 h6,
      ledgerStep_raises delta na a h1 h2 h3 h4 h5 h6]
    exact ⟨rfl, subLedger stks delta base _ _ (le_max_left 0 _) hrel⟩
  by_cases h7 : (plower a.action = str "wins" || plower a.action = str "collected") = true
  · rw [stacksStep_wins stks na a h1 h2 h3 h4 h5 h6 h7,
      ledgerStep_wins delta na a h1 h2 h3 h4 h5 h6 h7]
    exact ⟨rfl, addLedger stks delta base _ _ (extract_first_amount_nonneg _) hrel⟩
  by_cases h8 : plower a.action = str "uncalled"
  · rw [stacksStep_unc stks na a h1 h2 h3 h4 h5 h6 h7 h8,
      ledgerStep_unc delta na a h1 h2 h3 h4 h5 h6 h7 h8]
    rcases hrec : (if a.player ≠ [] then some a.player else extract_returned_to_name a.detail)
        with _ | r
    · exact ⟨rfl, fun p hp hb => hrel p hp hb⟩
    · simp only []
      by_cases hr : r ≠ []
      · rw [if_pos hr, if_pos hr]
        exact ⟨rfl, addLedger stks delta base _ _ (extract_first_amount_nonneg _) hrel⟩
      · rw [if_neg hr, if_neg hr]
        exact ⟨rfl, fun p hp hb => hrel p hp hb⟩
  · rw [stacksStep_other stks na a h1 h2 h3 h4 h5 h6 h7 h8,
      ledgerStep_other delta na a h1 h2 h3 h4 h5 h6 h7 h8]
    exact ⟨rfl, fun p hp hb => hrel p hp hb⟩

theorem stacksLedgerFold (acts : List Action) :
    ∀ (stks delta na base : NameMap),
    (∀ p, p ≠ [] → p ≠ str "Board" → stks p = base p + delta p) →
    (acts.foldl stacksStep (stks, na)).2 = (acts.foldl ledgerStep (delta, na)).2 ∧
    (∀ p, p ≠ [] → p ≠ str "Board" →
      (acts.foldl stacksStep (stks, na)).1 p =
        base p + (acts.foldl ledgerStep (delta, na)).1 p) := by
  induction acts with
  | nil =>
    intro stks delta na base hrel
    exact ⟨rfl, fun p hp hb => hrel p hp hb⟩
  | cons a rest ih =>
    intro stks delta na base hrel
    simp only [List.foldl_cons]
    obtain ⟨hna, hrel2⟩ := stacksLedgerStep a stks delta na base hrel
    rcases hS : stacksStep (stks, na) a with ⟨s1, n1⟩
    rcases hL : ledgerStep (delta, na) a with ⟨d1, n2⟩
    rw [hS, hL] at hna hrel2
    simp only at hna hrel2
    subst hna
    exact ih s1 d1 n1 base hrel2

theorem stacksStreet_ledger (acts : List Action) (stks delta base : NameMap)
    (hrel : ∀ p, p ≠ [] → p ≠ str "Board" → stks p = base p + delta p) :
    ∀ p, p ≠ [] → p ≠ str "Board" →
      stacksStreet stks acts p = base p + ledgerStreet delta acts p :=
  (stacksLedgerFold acts stks delta zeroMap base hrel).2

/-- Amended C10: for every seated player whose name is nonempty and not the
    sentinel `Board`, the reconstructed stack is exactly, in unbounded integer
    arithmetic, the seat-line starting chips minus every replayed
    posts/antes/bets/calls/raise-delta amount plus every wins/collected and
    uncalled-return amount (`stackLedger`); there is no lower clamp, so the
    value can go negative.  (For a player named `Board` the stack updates are
    skipped by `sub_from_stack`/`add_to_stack`; see the counterexample.) -/
theorem stacks_exact_ledger (h : Hand) (ts : Street) (ti : Int) (p : List Char)
    (hp : p ≠ []) (hb : p ≠ str "Board") :
    compute_stacks_upto h ts ti p = stackLedger h ts ti p := by
  have hrel0 : ∀ q, q ≠ [] → q ≠ str "Board" →
      initStacks h q = initStacks h q + zeroMap q := by
    intro q _ _
    simp [zeroMap]
  have hrel1 := stacksStreet_ledger h.preflopA (initStacks h) zeroMap (initStacks h) hrel0
  have hrel2 := stacksStreet_ledger h.flopA _ _ _ hrel1
  have hrel3 := stacksStreet_ledger h.turnA _ _ _ hrel2
  cases ts <;> simp only [compute_stacks_upto, stackLedger]
  · exact stacksStreet_ledger _ _ _ _ hrel0 p hp hb
  · exact stacksStreet_ledger _ _ _ _ hrel1 p hp hb
  · exact stacksStreet_ledger _ _ _ _ hrel2 p hp hb
  · exact stacksStreet_ledger _ _ _ _ hrel3 p hp hb

/- ==================== Claim counterexamples, evaluations, witnesses ==================== -/

/-- C1 counterexample: on the parsed hand `Alice antes 25; Alice raises to
    100`, the code's pot after the raise is 100 — the raise delta was reduced
    by the ante — while the claim's formula (raise deltas against prior
    NON-ANTE street contribution) gives 25 + 100 = 125. -/
theorem claim_C1_counterexample :
    compute_pot_upto hAnte .preflop 1 = 100 ∧
    claimPotSum hAnte .preflop 1 = 125 ∧
    ¬(compute_pot_upto hAnte .preflop 1 = claimPotSum hAnte .preflop 1) := by
  refine ⟨by decide, by decide, by decide⟩

/-- C2: evaluation at the failing input.  On `Alice antes 25; Alice raises to
    100`, `compute_pot_upto` treats the ante as street contribution (raise
    delta 75, pot 100), although its own docstring says antes are counted in
    the pot only; the sibling functions keep the ante separate, so the stack
    loses 125 while the pot records 100. -/
theorem claim_C2_eval :
    compute_pot_upto hAnte .preflop 1 = 100 ∧
    (compute_street_contrib_upto hAnte .preflop 1).1 (str "Alice") = 100 ∧
    (compute_street_contrib_upto hAnte .preflop 1).2 (str "Alice") = 25 ∧
    compute_stacks_upto hAnte .preflop 1 (str "Alice") = 1375 ∧
    ¬(compute_pot_upto hAnte .preflop 1 = 125) := by
  refine ⟨by decide, by decide, by decide, by decide, by decide⟩

/-- C3 counterexample: the raw line `Uncalled bet of 50 returned to Alice`
    matches no verb of `action_re`, so the parsed hand has a single preflop
    action and the pot at the cursor after that line is unchanged at 50, not
    decreased to 0 as the claim requires. -/
theorem claim_C3_counterexample :
    hUnc.preflopA.length = 1 ∧
    compute_pot_upto hUnc .preflop 1 = compute_pot_upto hUnc .preflop 0 ∧
    compute_pot_upto hUnc .preflop 0 = 50 := by
  refine ⟨by decide, by decide, by decide⟩

def uncAct : Action := ⟨str "Alice", str "uncalled", str "of 50 returned to Alice"⟩

/-- C3 witness: the uncalled step effect on a hand whose action list holds an
    `uncalled` action directly. -/
theorem claim_C3_witness :
    (hUncAct.actions .preflop)[1]? = some uncAct ∧
    uncAct.action = str "uncalled" ∧
    uncAct.player ≠ [] ∧
    uncAct.player ≠ str "Board" ∧
    (compute_pot_upto hUncAct .preflop 1 =
      compute_pot_upto hUncAct .preflop 0 - extract_first_amount uncAct.detail ∧
    (compute_street_contrib_upto hUncAct .preflop 1).1 uncAct.player =
      max 0 ((compute_street_contrib_upto hUncAct .preflop 0).1 uncAct.player -
        extract_first_amount uncAct.detail) ∧
    compute_stacks_upto hUncAct .preflop 1 uncAct.player =
      compute_stacks_upto hUncAct .preflop 0 uncAct.player +
        extract_first_amount uncAct.detail) :=
  ⟨by decide, rfl, by decide, by decide,
    uncalled_step hUncAct .preflop 1 uncAct (by decide) rfl (by decide) (by decide)⟩

/-- C4 counterexample: a raises action with detail `100 chips to 300` — which
    contains the clause `to 300` — is evaluated with raise target 100, the
    first integer token, not 300: the `raises\s+to` search never matches a
    parser-stripped detail. -/
theorem claim_C4_counterexample :
    hRto.preflopA = [⟨str "Alice", str "raises", str "100 chips to 300"⟩] ∧
    extract_raise_to_amount (str "100 chips to 300") = 100 ∧
    compute_pot_upto hRto .preflop 0 = 100 ∧
    ¬(extract_raise_to_amount (str "100 chips to 300") = 300) := by
  refine ⟨by decide, by decide, by decide, by decide⟩

/-- C4 witness: a verbatim raise detail `to 300` falls back to its first
    integer token. -/
theorem claim_C4_witness :
    infixOf (str "raises") (str "to 300") = false ∧
    (extract_first_amount (str "the small blind 10") =
      specFirstAmount (str "the small blind 10") ∧
    extract_raise_to_amount (str "to 300") = extract_first_amount (str "to 300")) :=
  ⟨by decide, amount_extraction (str "the small blind 10") (str "to 300") (by decide)⟩

/-- C5 counterexample: the spec's section 8 example hand seats only Alice, so
    Bob's stack starts at the dict default 0 and ends at -60, not 1480. -/
theorem claim_C5_counterexample :
    compute_stacks_upto hEx .preflop 3 (str "Bob") = -60 ∧
    ¬(compute_stacks_upto hEx .preflop 3 (str "Bob") = 1480) := by
  refine ⟨by decide, by decide⟩

/-- Amended C5: on the section 8 example hand, the cursor after `Bob calls 40`
    yields pot 120, street contributions 60 and 60, Alice's stack 1440, and —
    Bob having no seat line — Bob's stack -60. -/
theorem claim_C5_values :
    compute_pot_upto hEx .preflop 3 = 120 ∧
    (compute_street_contrib_upto hEx .preflop 3).1 (str "Alice") = 60 ∧
    (compute_street_contrib_upto hEx .preflop 3).1 (str "Bob") = 60 ∧
    compute_stacks_upto hEx .preflop 3 (str "Alice") = 1440 ∧
    compute_stacks_upto hEx .preflop 3 (str "Bob") = -60 := by
  refine ⟨by decide, by decide, by decide, by decide, by decide⟩

/-- C6 counterexample: with a junk line before the first header, the parser
    flushes the preamble as a hand of its own: two hands are emitted and the
    first one's header is the junk line, which does not carry the header
    literal. -/
theorem claim_C6_counterexample :
    (parseFT lsJunk).isSome = true ∧
    ((parseFT lsJunk).getD []).length = 2 ∧
    (((parseFT lsJunk).getD []).headD emptyHand).header = str "junk preamble line" ∧
    headerPat.isPrefixOf ((((parseFT lsJunk).getD []).headD emptyHand).header) = false := by
  refine ⟨by decide, by decide, by decide, by decide⟩

/-- A two-hand file whose first line is a header. -/
def lsTwo : List (List Char) :=
  [str "Full Tilt Poker Game #20001: table A",
   str "Seat 1: Alice (100)",
   str "Full Tilt Poker Game #20002: table A",
   str "Seat 2: Bob (200)"]

/-- C6 witness: segmentation of a two-hand file with a leading header. -/
theorem claim_C6_witness :
    lsTwo ≠ [] ∧
    headerPat.isPrefixOf (lsTwo.headD []) = true ∧
    (parseGroups lsTwo = segmentSpec lsTwo ∧
    (∀ g ∈ parseGroups lsTwo, g ≠ [] ∧ headerPat.isPrefixOf (g.headD []) = true) ∧
    (∀ hs, parseFT lsTwo = some hs →
      ∀ hd ∈ hs, headerPat.isPrefixOf hd.header = true)) :=
  ⟨by decide, by decide, segmentation_ok lsTwo (by decide) (by decide)⟩

/-- A hand with a preflop fold, for the fold-permanence witness. -/
def hFoldW : Hand :=
  { emptyHand with
    players := [⟨1, str "Alice", 100, false⟩, ⟨2, str "Bob", 100, false⟩],
    preflopA := [⟨str "Alice", str "folds", []⟩],
    flopA := [⟨str "Bob", str "checks", []⟩] }

/-- C7 witness: a player folded at a preflop cursor stays folded at a flop
    cursor. -/
theorem claim_C7_witness :
    cursorLE (Street.preflop, 0) (Street.flop, 0) ∧
    compute_folded_players_upto hFoldW .preflop 0 (str "Alice") = true ∧
    compute_folded_players_upto hFoldW .flop 0 (str "Alice") = true :=
  ⟨by decide, by decide,
    folds_monotone hFoldW (Street.preflop, 0) (Street.flop, 0) (by decide)
      (str "Alice") (by decide)⟩

/-- A parsed hand with flop and turn reveals, for the board witness. -/
def lsBoardW : List (List Char) :=
  [str "Full Tilt Poker Game #20003: table A",
   str "Seat 1: Carol (500)",
   str "*** FLOP *** [Ah Kd 7h]",
   str "Carol checks",
   str "*** TURN *** [Ah Kd 7h] [Qc]",
   str "Carol checks"]

def hBoardW : Hand := (parseHandO lsBoardW).getD emptyHand

/-- C8 witness: on a parsed two-street hand, the flop-cursor board is a prefix
    of the turn-cursor board, and included segments sit at or after their
    synthetic board actions. -/
theorem claim_C8_witness :
    parseHandO lsBoardW = some hBoardW ∧
    cursorLE (Street.flop, 0) (Street.turn, 0) ∧
    ((compute_board_upto hBoardW .flop 0 <+: compute_board_upto hBoardW .turn 0) ∧
    (∀ s : Street, segIncluded hBoardW .turn 0 s = true → boardOf hBoardW s ≠ [] →
      boardIdx hBoardW s < (hBoardW.actions s).length ∧
      cursorLE (s, (boardIdx hBoardW s : Int)) (Street.turn, 0))) :=
  ⟨by decide, by decide,
    board_monotone lsBoardW hBoardW (by decide) (Street.flop, 0) (Street.turn, 0)
      (by decide)⟩

/-- C10 counterexample: a seated player named exactly `Board` is skipped by
    `sub_from_stack`, so their reconstructed stack stays at the seat-line 100
    after `Board bets 50`, while the claim's ledger arithmetic gives 50. -/
theorem claim_C10_counterexample :
    hBoardSeat.players = [⟨1, str "Board", 100, false⟩] ∧
    compute_stacks_upto hBoardSeat .preflop 0 (str "Board") = 100 ∧
    stackLedger hBoardSeat .preflop 0 (str "Board") = 50 ∧
    ¬(compute_stacks_upto hBoardSeat .preflop 0 (str "Board") =
        stackLedger hBoardSeat .preflop 0 (str "Board")) := by
  refine ⟨by decide, by decide, by decide, by decide⟩

/-- C10 witness: Bob's reconstructed stack on the section 8 example equals the
    exact integer ledger, and is negative. -/
theorem claim_C10_witness :
    (str "Bob") ≠ ([] : List Char) ∧
    (str "Bob") ≠ str "Board" ∧
    compute_stacks_upto hEx .preflop 3 (str "Bob") = stackLedger hEx .preflop 3 (str "Bob") ∧
    stackLedger hEx .preflop 3 (str "Bob") = -60 :=
  ⟨by decide, by decide,
    stacks_exact_ledger hEx .preflop 3 (str "Bob") (by decide) (by decide),
    by decide⟩

end FT
